import Mathlib

/-!
# myWebserver: buffer, pools and reactor

A shallow embedding of `code/buffer/buffer.cpp`, `code/pool/sqlconnpool.cpp`,
`code/pool/threadpool.h` and the dispatch functions of
`code/server/webserver.cpp`, with the properties of the specification proved
over it.

Conventions of the embedding.

* `size_t` values are natural numbers.  Every subtraction of the source
  (`writePos_ - readPos_`, `buffer_.size() - writePos_`, `len - writable`) is
  taken under a guard or under the cursor invariant
  `readPos_ <= writePos_ <= buffer_.size()`, where the truncated subtraction
  of `Nat` and the subtraction of `size_t` agree; the sums are sizes of
  regions of objects that are live in memory.  Where an argument is any value
  of `size_t` rather than the length of bytes in memory
  (`EnsureWriteable(len)` called by itself), the functions named `_sz` compute
  in `size_t`, modulo `2^64`.
* `std::vector<char>` is a list of bytes; a pointer into it is an index.
* `assert(c)` is a failure point: a function that contains one returns an
  `Option`, and `none` is the abort of a failed assertion.
* A call of the operating system or of a collaborator whose code is outside
  the modelled files is an input of the function that makes the call.
-/

/-! ## Buffer (`code/buffer/buffer.cpp`) -/

/-- One `char` of the store. -/
abbrev Byte := Fin 256

/-- The data members of `class Buffer`: the store and the two cursors. -/
structure Buffer where
  buffer_ : List Byte
  readPos_ : Nat
  writePos_ : Nat
deriving DecidableEq, Repr

/-- The call `v.resize(n)` of `std::vector<char>`: truncates, or pads with zero bytes. -/
def vecResize (v : List Byte) (n : Nat) : List Byte :=
  v.take n ++ List.replicate (n - v.length) 0

/-- The call `std::copy(src, src + len, dst)` with the source outside the store:
the bytes are written one after the other from index `pos` on. -/
def copyIn (buf : List Byte) (pos : Nat) : List Byte → List Byte
  | [] => buf
  | c :: cs => copyIn (buf.set pos c) (pos + 1) cs

/-- The loop of `std::copy(first, last, d_first)` when source and destination
lie in the same store: `n` assignments `*d++ = *first++`, each one reading
the store as the previous ones left it. -/
def copyLoop : Nat → Nat → Nat → List Byte → List Byte
  | 0, _, _, buf => buf
  | n + 1, i, d, buf => copyLoop n (i + 1) (d + 1) (buf.set d (buf.getD i 0))

/-- The call `std::copy(begin + first, begin + last, begin + dst)` inside one store. -/
def copyWithin (buf : List Byte) (first last dst : Nat) : List Byte :=
  copyLoop (last - first) first dst buf

/-- The call `bzero(&v[0], n)`: the first `n` bytes become zero. -/
def bzero : List Byte → Nat → List Byte
  | [], _ => []
  | b :: bs, 0 => b :: bs
  | _ :: bs, n + 1 => 0 :: bzero bs n

namespace Buffer

/-- The constructor `Buffer::Buffer(initBuffSize)`: a zero-filled store, both cursors 0. -/
def ctor (initBuffSize : Nat) : Buffer :=
  { buffer_ := List.replicate initBuffSize 0, readPos_ := 0, writePos_ := 0 }

/-- Member function `Buffer::ReadableBytes`. -/
def ReadableBytes (b : Buffer) : Nat := b.writePos_ - b.readPos_

/-- Member function `Buffer::WritableBytes`. -/
def WritableBytes (b : Buffer) : Nat := b.buffer_.length - b.writePos_

/-- Member function `Buffer::PrependableBytes`. -/
def PrependableBytes (b : Buffer) : Nat := b.readPos_

/-- Member function `Buffer::Peek`: the store seen from the read cursor on. -/
def Peek (b : Buffer) : List Byte := b.buffer_.drop b.readPos_

/-- Member function `Buffer::Retrieve`; `none` is the failed `assert(len <= ReadableBytes())`. -/
def Retrieve (b : Buffer) (len : Nat) : Option Buffer :=
  if len ≤ b.ReadableBytes then some { b with readPos_ := b.readPos_ + len } else none

/-- Member function `Buffer::RetrieveAll`. -/
def RetrieveAll (b : Buffer) : Buffer :=
  { buffer_ := bzero b.buffer_ b.buffer_.length, readPos_ := 0, writePos_ := 0 }

/-- Member function `Buffer::RetrieveAllToStr`: the string built from `Peek()` and
`ReadableBytes()`, and the buffer after `RetrieveAll`. -/
def RetrieveAllToStr (b : Buffer) : List Byte × Buffer :=
  (b.Peek.take b.ReadableBytes, b.RetrieveAll)

/-- Member function `Buffer::HasWritten`. -/
def HasWritten (b : Buffer) (len : Nat) : Buffer :=
  { b with writePos_ := b.writePos_ + len }

/-- Member function `Buffer::MakeSpace_` for an argument `len` that is the length
of bytes in memory, where `writePos_ + len + 1` does not leave the range of
`size_t` (`MakeSpace_sz` is the function for every `len`); `none` is the
failed `assert(readable == ReadableBytes())`. -/
def MakeSpace_ (b : Buffer) (len : Nat) : Option Buffer :=
  if b.WritableBytes + b.PrependableBytes < len then
    some { b with buffer_ := vecResize b.buffer_ (b.writePos_ + len + 1) }
  else
    let readable := b.ReadableBytes
    let b1 : Buffer := { b with buffer_ := copyWithin b.buffer_ b.readPos_ b.writePos_ 0 }
    let b2 : Buffer := { b1 with readPos_ := 0 }
    let b3 : Buffer := { b2 with writePos_ := b2.readPos_ + readable }
    if readable = b3.ReadableBytes then some b3 else none

/-- Member function `Buffer::EnsureWriteable` for an argument `len` that is the
length of bytes in memory (`EnsureWriteable_sz` is the function for every
`len`); `none` is a failed assertion, the one of `MakeSpace_` or the final
`assert(WritableBytes() >= len)`. -/
def EnsureWriteable (b : Buffer) (len : Nat) : Option Buffer :=
  (if b.WritableBytes < len then b.MakeSpace_ len else some b).bind fun b1 =>
    if len ≤ b1.WritableBytes then some b1 else none

/-- The number of values of `size_t` (64 bits, as on the Linux systems that
have `epoll`). -/
def sizeMod : Nat := 2 ^ 64

/-- Addition of `size_t`. -/
def addSz (a c : Nat) : Nat := (a + c) % sizeMod

/-- Subtraction of `size_t`. -/
def subSz (a c : Nat) : Nat := (a + sizeMod - c % sizeMod) % sizeMod

/-- Member function `Buffer::ReadableBytes` with the subtraction of `size_t`. -/
def ReadableBytes_sz (b : Buffer) : Nat := subSz b.writePos_ b.readPos_

/-- Member function `Buffer::WritableBytes` with the subtraction of `size_t`. -/
def WritableBytes_sz (b : Buffer) : Nat := subSz b.buffer_.length b.writePos_

/-- Member function `Buffer::MakeSpace_` for an argument `len` that is any value
of `size_t`: every sum and difference is the one of `size_t`, the argument
of `resize` included; `resize` obtains the memory that it asks for.  `none`
is the failed `assert(readable == ReadableBytes())`. -/
def MakeSpace_sz (b : Buffer) (len : Nat) : Option Buffer :=
  if addSz b.WritableBytes_sz b.PrependableBytes < len then
    some { b with buffer_ := vecResize b.buffer_ (addSz (addSz b.writePos_ len) 1) }
  else
    let readable := b.ReadableBytes_sz
    let b1 : Buffer := { b with buffer_ := copyWithin b.buffer_ b.readPos_ b.writePos_ 0 }
    let b2 : Buffer := { b1 with readPos_ := 0 }
    let b3 : Buffer := { b2 with writePos_ := addSz b2.readPos_ readable }
    if readable = b3.ReadableBytes_sz then some b3 else none

/-- Member function `Buffer::EnsureWriteable` for an argument `len` that is any
value of `size_t`; `none` is a failed assertion, the one of `MakeSpace_` or
the final `assert(WritableBytes() >= len)`. -/
def EnsureWriteable_sz (b : Buffer) (len : Nat) : Option Buffer :=
  (if b.WritableBytes_sz < len then b.MakeSpace_sz len else some b).bind fun b1 =>
    if len ≤ b1.WritableBytes_sz then some b1 else none

/-- Member function `Buffer::Append(const char *str, size_t len)` for a pointer
`str` to `len` bytes that lie outside the store of the buffer: the bytes
that `std::copy` reads after `EnsureWriteable` are the ones that `str`
designated at the call. -/
def Append (b : Buffer) (str : List Byte) : Option Buffer :=
  (b.EnsureWriteable str.length).map fun b1 =>
    HasWritten { b1 with buffer_ := copyIn b1.buffer_ b1.writePos_ str } str.length

/-- Member function `Buffer::Append(const char *str, size_t len)` for the pointer
`str = BeginPtr_() + off` into the store of the buffer itself, as `Peek()`
is.  `std::copy(str, str + len, BeginWrite())` runs after `EnsureWriteable`
and reads the store as `EnsureWriteable` left it.  `none` is a failed
assertion, or the growth path, where `resize` may move the store and `str`
no longer points into it. -/
def AppendOwn (b : Buffer) (off len : Nat) : Option Buffer :=
  (b.EnsureWriteable len).bind fun b1 =>
    if b1.buffer_.length = b.buffer_.length then
      some (HasWritten { b1 with buffer_ := copyLoop len off b1.writePos_ b1.buffer_ } len)
    else none

/-- Member function `Buffer::Append(const Buffer &buff)`, which is
`Append(buff.Peek(), buff.ReadableBytes())`, called with the buffer itself. -/
def AppendSelf (b : Buffer) : Option Buffer :=
  b.AppendOwn b.readPos_ b.ReadableBytes

/-- What `readv(fd, iov, 2)` did: it failed and set `errno`, or it received
`data` and scattered it over the two areas in order. -/
inductive ReadvResult where
  | fail (errno : Int)
  | ok (data : List Byte)
deriving DecidableEq, Repr

/-- The size of the stack area `char buff[65535]` of `ReadFd`. -/
def scratchSize : Nat := 65535

/-- Member function `Buffer::ReadFd`.  The result is the returned length, the buffer
afterwards and the value stored through `saveErrno`, if one was stored. -/
def ReadFd (b : Buffer) (r : ReadvResult) : Option (Int × Buffer × Option Int) :=
  let writable := b.WritableBytes
  match r with
  | .fail errno => some (-1, b, some errno)
  | .ok data =>
    -- iov[0] is the writable region, iov[1] the stack area
    let b0 : Buffer := { b with buffer_ := copyIn b.buffer_ b.writePos_ (data.take writable) }
    let buff : List Byte := (data.drop writable).take scratchSize
    let len : Int := data.length
    if len.toNat ≤ writable then
      some (len, { b0 with writePos_ := b0.writePos_ + len.toNat }, none)
    else
      let b1 : Buffer := { b0 with writePos_ := b0.buffer_.length }
      (b1.Append (buff.take (len.toNat - writable))).map fun b2 => (len, b2, none)

/-- The buffer of `ReadFd` between `writePos_ = buffer_.size()` and the call
of `Append`: the writable region filled by `readv`, the write cursor at the
end of the store. -/
def readFdFull (b : Buffer) (data : List Byte) : Buffer :=
  { buffer_ := copyIn b.buffer_ b.writePos_ (data.take b.WritableBytes),
    readPos_ := b.readPos_,
    writePos_ := (copyIn b.buffer_ b.writePos_ (data.take b.WritableBytes)).length }

/-- The cursor invariant `readPos_ <= writePos_ <= buffer_.size()`. -/
def Inv (b : Buffer) : Prop :=
  b.readPos_ ≤ b.writePos_ ∧ b.writePos_ ≤ b.buffer_.length

instance (b : Buffer) : Decidable b.Inv := by unfold Inv; infer_instance

/-- The bytes of the readable region `[readPos_, writePos_)`. -/
def readable (b : Buffer) : List Byte :=
  (b.buffer_.drop b.readPos_).take (b.writePos_ - b.readPos_)

end Buffer


/-- One call of a sequence of buffer calls: `Append(data, len)` or `Retrieve(len)`. -/
inductive BufOp where
  | append (data : List Byte)
  | retrieve (len : Nat)
deriving DecidableEq, Repr

namespace BufOp

/-- The call made on the buffer `b`. -/
def apply (b : Buffer) : BufOp → Option Buffer
  | append data => b.Append data
  | retrieve len => b.Retrieve len

/-- The calls of the list made one after the other, the first one on `b`. -/
def run (b : Buffer) : List BufOp → Option Buffer
  | [] => some b
  | op :: ops => (op.apply b).bind fun b1 => run b1 ops

/-- Total number of bytes that the calls of the list append. -/
def appended : List BufOp → Nat
  | [] => 0
  | append data :: ops => data.length + appended ops
  | retrieve _ :: ops => appended ops

/-- Total number of bytes that the calls of the list retrieve. -/
def retrieved : List BufOp → Nat
  | [] => 0
  | append _ :: ops => retrieved ops
  | retrieve len :: ops => len + retrieved ops

/-- The caller's obligation: every `Retrieve(len)` of the list is called with
`len <= ReadableBytes()` of the buffer it is called on. -/
def retrievesOk (b : Buffer) : List BufOp → Bool
  | [] => true
  | op :: ops =>
    (match op with
      | retrieve len => decide (len ≤ b.ReadableBytes)
      | append _ => true) &&
    (match op.apply b with
      | some b1 => retrievesOk b1 ops
      | none => true)

end BufOp

/-! ## SqlConnPool (`code/pool/sqlconnpool.cpp`) -/

/-- How a call ends: it returns, it aborts on a failed `assert`, or it is
suspended in a wait that nothing in the run can end. -/
inductive Outcome (α : Type) where
  | done (a : α)
  | abort
  | blocks
deriving DecidableEq, Repr

/-- A `MYSQL *`: `none` is `nullptr`, `some i` points to the connection
object number `i`. -/
abbrev Handle := Option Nat

/-- The MySQL client library as `Init` meets it: whether the `i`-th call of
`mysql_init` returns an object (it is object number `i`: the library hands
out a new object at each call), and whether `mysql_real_connect` on that
object succeeds. -/
structure MysqlEnv where
  initOk : Nat → Bool
  connectOk : Nat → Bool

/-- A call that `GetConn` or `FreeConn` makes, in the order made. -/
inductive PoolCall where
  | logWarn
  | semWait
  | semPost
  | lock
  | unlock
deriving DecidableEq, Repr

/-- The data members of `class SqlConnPool`; `connQue_` has its front at the
head of the list, `semId_` is the value of the semaphore. -/
structure SqlConnPool where
  MAX_CONN_ : Int
  useCount_ : Int
  freeCount_ : Int
  connQue_ : List Handle
  semId_ : Nat
deriving DecidableEq, Repr

namespace SqlConnPool

/-- The instance of `SqlConnPool::Instance()`: an object of static storage,
zero before `SqlConnPool::SqlConnPool()` sets the two counters to 0. -/
def ctor : SqlConnPool :=
  { MAX_CONN_ := 0, useCount_ := 0, freeCount_ := 0, connQue_ := [], semId_ := 0 }

/-- The `for` loop of `Init`, `n` rounds from index `i` on: `mysql_init`
(`none` is the failed `assert(sql)`), `mysql_real_connect`, whose result,
`nullptr` on failure, is pushed. -/
def initLoop (env : MysqlEnv) : Nat → Nat → List Handle → Option (List Handle)
  | 0, _, q => some q
  | n + 1, i, q =>
    if env.initOk i then
      initLoop env n (i + 1) (q ++ [if env.connectOk i then some i else none])
    else none

/-- Member function `SqlConnPool::Init`, as `WebServer::WebServer` calls it, once,
on the instance that `Instance()` returns: no connection object exists
before, so the objects are numbered from 0.  `none` is a failed assertion;
`sem_init` with the value of an `int` returns 0. -/
def Init (p : SqlConnPool) (env : MysqlEnv) (connSize : Int) : Option SqlConnPool :=
  if 0 < connSize then
    (initLoop env connSize.toNat 0 p.connQue_).map fun q =>
      { p with connQue_ := q, MAX_CONN_ := connSize, semId_ := connSize.toNat }
  else none

/-- Member function `SqlConnPool::GetConn`, with the calls it made.  `sem_wait` on a
semaphore of value 0 suspends the caller. -/
def GetConn (p : SqlConnPool) : Outcome (Handle × SqlConnPool × List PoolCall) :=
  match p.connQue_ with
  | [] => .done (none, p, [.logWarn])
  | sql :: rest =>
    if p.semId_ = 0 then .blocks
    else .done (sql, { p with semId_ := p.semId_ - 1, connQue_ := rest },
      [.semWait, .lock, .unlock])

/-- Member function `SqlConnPool::FreeConn`, with the calls it made; `abort` is the failed `assert(sql)`. -/
def FreeConn (p : SqlConnPool) (sql : Handle) : Outcome (SqlConnPool × List PoolCall) :=
  match sql with
  | none => .abort
  | some _ => .done ({ p with connQue_ := p.connQue_ ++ [sql], semId_ := p.semId_ + 1 },
      [.lock, .semPost, .unlock])

/-- The first step of `GetConn` on a queue seen non-empty: `sem_wait(&semId_)`,
which takes one from the semaphore or suspends the caller on the value 0. -/
def semWaitStep (p : SqlConnPool) : Outcome SqlConnPool :=
  if p.semId_ = 0 then .blocks else .done { p with semId_ := p.semId_ - 1 }

/-- The second step of `GetConn`, under the mutex: `front()` and `pop()`;
`none` on an empty queue, where `front()` has no result. -/
def popStep (p : SqlConnPool) : Option (Handle × SqlConnPool) :=
  match p.connQue_ with
  | [] => none
  | sql :: rest => some (sql, { p with connQue_ := rest })

/-- The pool states that the program reaches: `Init` on the instance, then
calls of `GetConn` and `FreeConn` that return. -/
inductive Reachable : SqlConnPool → Prop where
  | init (env : MysqlEnv) (connSize : Int) (p : SqlConnPool) :
      Init ctor env connSize = some p → Reachable p
  | getConn (p p1 : SqlConnPool) (sql : Handle) (calls : List PoolCall) :
      Reachable p → p.GetConn = .done (sql, p1, calls) → Reachable p1
  | freeConn (p p1 : SqlConnPool) (sql : Handle) (calls : List PoolCall) :
      Reachable p → p.FreeConn sql = .done (p1, calls) → Reachable p1

end SqlConnPool

/-- The pool together with the handles that callers hold: those that
`GetConn` returned and that were not given back to `FreeConn` since. -/
structure PoolSt where
  pool : SqlConnPool
  held : List Nat
deriving DecidableEq, Repr

/-- One call of a sequence of pool calls. -/
inductive PoolOp where
  | getConn
  | freeConn (sql : Handle)
deriving DecidableEq, Repr

namespace PoolOp

/-- The call made in the state `s`; a returned handle becomes held, a
released one stops being held. -/
def apply (s : PoolSt) : PoolOp → Outcome PoolSt
  | getConn =>
    match s.pool.GetConn with
    | .done (some h, p, _) => .done { pool := p, held := s.held ++ [h] }
    | .done (none, p, _) => .done { pool := p, held := s.held }
    | .abort => .abort
    | .blocks => .blocks
  | freeConn sql =>
    match s.pool.FreeConn sql with
    | .done (p, _) =>
      .done { pool := p, held := match sql with
                                 | some h => s.held.erase h
                                 | none => s.held }
    | .abort => .abort
    | .blocks => .blocks

/-- The calls of the list made one after the other. -/
def run (s : PoolSt) : List PoolOp → Outcome PoolSt
  | [] => .done s
  | op :: ops =>
    match op.apply s with
    | .done s1 => run s1 ops
    | .abort => .abort
    | .blocks => .blocks

/-- The caller's obligation: every `FreeConn` of the list is called with a
handle that is held when the call is made. -/
def freesOk (s : PoolSt) : List PoolOp → Bool
  | [] => true
  | op :: ops =>
    (match op with
      | freeConn (some h) => decide (h ∈ s.held)
      | freeConn none => false
      | getConn => true) &&
    (match op.apply s with
      | .done s1 => freesOk s1 ops
      | _ => true)

end PoolOp

/-- A database that accepts every connection. -/
def healthyEnv : MysqlEnv := { initOk := fun _ => true, connectOk := fun _ => true }

/-- A database that refuses every connection: `mysql_real_connect` returns `nullptr`. -/
def downEnv : MysqlEnv := { initOk := fun _ => true, connectOk := fun _ => false }

/-- What the calls keep on a pool of `C` established connections: the queue
holds connection objects only, no object is twice among the queued and the
held ones, they are `C` together, and the semaphore counts the queue. -/
def PoolSt.Conserved (C : Nat) (s : PoolSt) : Prop :=
  ∃ l : List Nat, s.pool.connQue_ = l.map some ∧ (l ++ s.held).Nodup ∧
    l.length + s.held.length = C ∧ s.pool.semId_ = l.length

/-- What the calls keep on every pool of capacity `C`, whatever the
connections did in `Init`: no connection object is twice among the queued and
the held ones, the held handles and the queue entries are at most `C`
together, and the semaphore counts the queue. -/
def PoolSt.Bounded (C : Nat) (s : PoolSt) : Prop :=
  (s.pool.connQue_.filterMap id ++ s.held).Nodup ∧
    s.held.length + s.pool.connQue_.length ≤ C ∧ s.pool.semId_ = s.pool.connQue_.length

/-- A database that refuses the connection of object 1 and accepts the others. -/
def flakyEnv : MysqlEnv := { initOk := fun _ => true, connectOk := fun i => i != 1 }

/-! ## ThreadPool (`code/pool/threadpool.h`) -/

/-- A task of the queue, a `std::function<void()>`, known by a number. -/
abbrev TaskId := Nat

/-- Where a worker thread stands in the loop of its lambda: `ready` at the
top of the loop with the mutex, `running t` in `task()` after `unlock`,
`waiting` in `cond.wait`, `exited` after `break`. -/
inductive Worker where
  | ready
  | running (t : TaskId)
  | waiting
  | exited
deriving DecidableEq, Repr

/-- The shared `struct Pool` (`tasks` with its front at the head, `isClosed`),
the worker threads, and the history of the run: the tasks given to `AddTask`,
those taken from the queue, those whose `task()` has returned, each in the
order it happened. -/
structure ThreadPool where
  tasks : List TaskId
  isClosed : Bool
  workers : List Worker
  submitted : List TaskId
  dequeued : List TaskId
  ran : List TaskId
deriving DecidableEq, Repr

/-- One atomic step of the pool: a call of `AddTask`, the next step of worker
number `i`, or the destructor. -/
inductive PoolAction where
  | addTask (t : TaskId)
  | worker (i : Nat)
  | destroy
deriving DecidableEq, Repr

namespace ThreadPool

/-- The constructor `ThreadPool(threadCount)`: `none` is the
failed `assert(threadCount > 0)`.  `std::make_shared<Pool>()` value-initialises
the `Pool`, so `isClosed` is false and the queue empty; every thread starts
by taking the mutex. -/
def ctor (threadCount : Nat) : Option ThreadPool :=
  if 0 < threadCount then
    some { tasks := [], isClosed := false, workers := List.replicate threadCount .ready,
           submitted := [], dequeued := [], ran := [] }
  else none

/-- Member function `ThreadPool::AddTask`, under the mutex: the task goes to the tail of the queue. -/
def AddTask (s : ThreadPool) (t : TaskId) : ThreadPool :=
  { s with tasks := s.tasks ++ [t], submitted := s.submitted ++ [t] }

/-- The destructor `~ThreadPool`, under the mutex: `isClosed = true`. -/
def destroy (s : ThreadPool) : ThreadPool :=
  { s with isClosed := true }

/-- The next step of worker `i`.  A `ready` worker holds the mutex and takes
one branch of the loop body: it removes the front task and goes on to run it,
or, the queue being empty, leaves the loop when `isClosed`, or else waits.
A `running` worker returns from `task()` and takes the mutex again; a
`waiting` one wakes up.  `none`: there is no such worker or it has exited. -/
def workerStep (s : ThreadPool) (i : Nat) : Option ThreadPool :=
  match s.workers[i]? with
  | some .ready =>
    match s.tasks with
    | t :: rest =>
      some { s with tasks := rest, workers := s.workers.set i (.running t),
                    dequeued := s.dequeued ++ [t] }
    | [] =>
      if s.isClosed then some { s with workers := s.workers.set i .exited }
      else some { s with workers := s.workers.set i .waiting }
  | some (.running t) =>
    some { s with workers := s.workers.set i .ready, ran := s.ran ++ [t] }
  | some .waiting => some { s with workers := s.workers.set i .ready }
  | some .exited => none
  | none => none

/-- One step; `none` when it cannot be taken.  `AddTask` and `~ThreadPool`
are members of the one `ThreadPool` object that owns the shared `Pool`:
`isClosed` is set when that object is destroyed, and no member is called on
it afterwards. -/
def step (s : ThreadPool) : PoolAction → Option ThreadPool
  | .addTask t => if s.isClosed then none else some (s.AddTask t)
  | .worker i => s.workerStep i
  | .destroy => some s.destroy

/-- An interleaving: the steps of the list taken one after the other; `none`
when one of them cannot be taken. -/
def run (s : ThreadPool) : List PoolAction → Option ThreadPool
  | [] => some s
  | a :: as => (s.step a).bind fun s1 => run s1 as

/-- The tasks that workers have taken from the queue and not finished. -/
def inFlight : List Worker → List TaskId
  | [] => []
  | .running t :: ws => t :: inFlight ws
  | _ :: ws => inFlight ws

/-- What every interleaving keeps. -/
def Inv (s : ThreadPool) : Prop :=
  s.dequeued ++ s.tasks = s.submitted ∧
  (s.ran ++ inFlight s.workers).Perm s.dequeued ∧
  s.workers ≠ [] ∧
  (Worker.exited ∈ s.workers → s.isClosed = true) ∧
  ((∀ w ∈ s.workers, w = Worker.exited) → s.tasks = [])

end ThreadPool

/-! ## WebServer (`code/server/webserver.cpp`)

`HttpConn`, `Epoller`, `HeapTimer` and the system calls are outside the
modelled files.  A function of `WebServer` is modelled by the sequence of
calls that it makes on them, in order, given the values that they return.  A
connection is named by its descriptor: `client` stands for `&users_[fd]` and
`client->GetFd()` for `fd`.  The `LOG_*` macros are left out of the sequences. -/

/-- Constant `EPOLLIN`. -/
def EPOLLIN : Nat := 0x001
/-- Constant `EPOLLOUT`. -/
def EPOLLOUT : Nat := 0x004
/-- Constant `EPOLLERR`. -/
def EPOLLERR : Nat := 0x008
/-- Constant `EPOLLHUP`. -/
def EPOLLHUP : Nat := 0x010
/-- Constant `EPOLLRDHUP`. -/
def EPOLLRDHUP : Nat := 0x2000
/-- Constant `EPOLLONESHOT`. -/
def EPOLLONESHOT : Nat := 0x40000000
/-- Constant `EPOLLET`. -/
def EPOLLET : Nat := 0x80000000
/-- Constant `EAGAIN`, the would-block error code. -/
def EAGAIN : Int := 11
/-- Constant `O_NONBLOCK`. -/
def O_NONBLOCK : Nat := 0x800

/-- The function object that `AddClient_` gives to the timer:
`std::bind(&WebServer::CloseConn_, this, &users_[fd])`. -/
inductive TimerCb where
  | closeConn (fd : Int)
deriving DecidableEq, Repr

/-- A task that the reactor gives to the thread pool:
`std::bind(&WebServer::OnRead_, this, client)` or the same with `OnWrite_`. -/
inductive ServerTask where
  | onRead (client : Int)
  | onWrite (client : Int)
deriving DecidableEq, Repr

/-- A call on a collaborator or on the operating system. -/
inductive Call where
  | accept (listenFd : Int)
  | send (fd : Int) (info : String)
  | close (fd : Int)
  | fcntlGetFd (fd : Int)
  | fcntlSetFl (fd : Int) (flags : Int)
  | usersInit (fd : Int) (addr : Nat)
  | connRead (fd : Int)
  | connWrite (fd : Int)
  | connToWriteBytes (fd : Int)
  | connIsKeepAlive (fd : Int)
  | connProcess (fd : Int)
  | connClose (fd : Int)
  | timerAdd (fd : Int) (timeout : Int) (cb : TimerCb)
  | timerAdjust (fd : Int) (timeout : Int)
  | epollAdd (fd : Int) (events : Nat)
  | epollMod (fd : Int) (events : Nat)
  | epollDel (fd : Int)
  | poolAddTask (task : ServerTask)
deriving DecidableEq, Repr

namespace Call

/-- The calls that reach the connection table `users_`. -/
def onUsers : Call → Bool
  | usersInit _ _ => true
  | connRead _ => true
  | connWrite _ => true
  | connToWriteBytes _ => true
  | connIsKeepAlive _ => true
  | connProcess _ => true
  | connClose _ => true
  | _ => false

/-- The calls on the multiplexer `epoller_`. -/
def onEpoller : Call → Bool
  | epollAdd _ _ => true
  | epollMod _ _ => true
  | epollDel _ => true
  | _ => false

/-- The calls on the timer `timer_`. -/
def onTimer : Call → Bool
  | timerAdd _ _ _ => true
  | timerAdjust _ _ => true
  | _ => false

end Call

/-- The data members of `WebServer` that the dispatch functions read, and
`MAX_FD`, a constant of `webserver.h`, which is not among the files. -/
structure WebServer where
  MAX_FD : Int
  timeoutMS_ : Int
  listenFd_ : Int
  listenEvent_ : Nat
  connEvent_ : Nat
deriving DecidableEq, Repr

/-- One return of `accept` in `DealListen_`, with what the iteration reads
next: the descriptor and the peer address, the value of
`HttpConn::userCount` at the comparison with `MAX_FD` (a static counter of
`HttpConn`, which other threads change), the result of `send` in
`SendError_`, the flags that `fcntl(fd, F_GETFD, 0)` returns in
`SetFdNonblock`. -/
structure Accepted where
  fd : Int
  addr : Nat
  userCount : Int
  sendRet : Int
  preFlag : Int
deriving DecidableEq, Repr

/-- What the connection answers to the calls of one task: the result of
`read` or `write`, the value it stored through the errno pointer (if it
stored one), `ToWriteBytes()`, `IsKeepAlive()`, `process()`. -/
structure ConnReplies where
  ioRet : Int
  ioErrno : Option Int
  toWriteBytes : Nat
  isKeepAlive : Bool
  process : Bool
deriving DecidableEq, Repr

namespace WebServer

/-- Member function `WebServer::InitEventMode_`: the values of `listenEvent_` and `connEvent_`. -/
def InitEventMode_ (trigMode : Int) : Nat × Nat :=
  let listenEvent := EPOLLRDHUP
  let connEvent := EPOLLONESHOT ||| EPOLLRDHUP
  if trigMode = 0 then (listenEvent, connEvent)
  else if trigMode = 1 then (listenEvent, connEvent ||| EPOLLET)
  else if trigMode = 2 then (listenEvent ||| EPOLLET, connEvent)
  else (listenEvent ||| EPOLLET, connEvent ||| EPOLLET)

/-- Member function `WebServer::SendError_`; `none` is the failed `assert(fd > 0)`.  A
negative result of `send` is logged only. -/
def SendError_ (fd : Int) (info : String) (_sendRet : Int) : Option (List Call) :=
  if 0 < fd then some [.send fd info, .close fd] else none

/-- Member function `WebServer::CloseConn_`. -/
def CloseConn_ (_s : WebServer) (client : Int) : List Call :=
  [.epollDel client, .connClose client]

/-- Member function `WebServer::SetFdNonblock`; `none` is the failed `assert(fd > 0)`. -/
def SetFdNonblock (fd : Int) (preFlag : Int) : Option (List Call) :=
  if 0 < fd then some [.fcntlGetFd fd, .fcntlSetFl fd (Int.lor preFlag O_NONBLOCK)] else none

/-- Member function `WebServer::AddClient_`; `none` is a failed `assert(fd > 0)`. -/
def AddClient_ (s : WebServer) (fd : Int) (addr : Nat) (preFlag : Int) : Option (List Call) :=
  if 0 < fd then
    (SetFdNonblock fd preFlag).map fun nb =>
      [.usersInit fd addr] ++
      (if 0 < s.timeoutMS_ then [.timerAdd fd s.timeoutMS_ (.closeConn fd)] else []) ++
      [.epollAdd fd (EPOLLIN ||| s.connEvent_)] ++ nb
  else none

/-- Member function `WebServer::DealListen_`.  The list holds the returns of the successive
calls of `accept`; once it is used up the listening socket, which is
non-blocking, has no connection left and `accept` returns -1. -/
def DealListen_ (s : WebServer) : List Accepted → Option (List Call)
  | [] => some [.accept s.listenFd_]
  | a :: rest =>
    if a.fd ≤ 0 then some [.accept s.listenFd_]
    else if s.MAX_FD ≤ a.userCount then
      (SendError_ a.fd "Server busy!" a.sendRet).map fun tr => .accept s.listenFd_ :: tr
    else
      (s.AddClient_ a.fd a.addr a.preFlag).bind fun tr =>
        if s.listenEvent_ &&& EPOLLET ≠ 0 then
          (DealListen_ s rest).map fun more => .accept s.listenFd_ :: tr ++ more
        else some (.accept s.listenFd_ :: tr)

/-- Member function `WebServer::OnProcess`. -/
def OnProcess (s : WebServer) (client : Int) (r : ConnReplies) : List Call :=
  .connProcess client ::
    (if r.process then [.epollMod client (s.connEvent_ ||| EPOLLOUT)]
     else [.epollMod client (s.connEvent_ ||| EPOLLIN)])

/-- Member function `WebServer::OnRead_`; `readErrno` starts at 0. -/
def OnRead_ (s : WebServer) (client : Int) (r : ConnReplies) : List Call :=
  let ret := r.ioRet
  let readErrno := r.ioErrno.getD 0
  .connRead client ::
    (if ret ≤ 0 ∧ readErrno ≠ EAGAIN then s.CloseConn_ client
     else s.OnProcess client r)

/-- Member function `WebServer::OnWrite_`; `writeErrno` starts at 0. -/
def OnWrite_ (s : WebServer) (client : Int) (r : ConnReplies) : List Call :=
  let ret := r.ioRet
  let writeErrno := r.ioErrno.getD 0
  .connWrite client :: .connToWriteBytes client ::
    (if r.toWriteBytes = 0 then
      .connIsKeepAlive client ::
        (if r.isKeepAlive then s.OnProcess client r else s.CloseConn_ client)
     else if ret < 0 then
      (if writeErrno = EAGAIN then [.epollMod client (s.connEvent_ ||| EPOLLOUT)]
       else s.CloseConn_ client)
     else s.CloseConn_ client)

/-- Member function `WebServer::ExtentTime_`. -/
def ExtentTime_ (s : WebServer) (client : Int) : List Call :=
  if 0 < s.timeoutMS_ then [.timerAdjust client s.timeoutMS_] else []

/-- Member function `WebServer::DealRead_`. -/
def DealRead_ (s : WebServer) (client : Int) : List Call :=
  s.ExtentTime_ client ++ [.poolAddTask (.onRead client)]

/-- Member function `WebServer::DealWrite_`. -/
def DealWrite_ (s : WebServer) (client : Int) : List Call :=
  s.ExtentTime_ client ++ [.poolAddTask (.onWrite client)]

/-- The body of the `for` loop of `WebServer::Start` for one ready event
`(fd, events)`; `known` is `users_.count(fd) > 0`, and `none` is the failed
assertion on it (or one inside `DealListen_`). -/
def handleEvent (s : WebServer) (fd : Int) (events : Nat) (known : Bool)
    (accepts : List Accepted) : Option (List Call) :=
  if fd = s.listenFd_ then s.DealListen_ accepts
  else if events &&& (EPOLLRDHUP ||| EPOLLHUP ||| EPOLLERR) ≠ 0 then
    if known then some (s.CloseConn_ fd) else none
  else if events &&& EPOLLIN ≠ 0 then
    if known then some (s.DealRead_ fd) else none
  else if events &&& EPOLLOUT ≠ 0 then
    if known then some (s.DealWrite_ fd) else none
  else some []

/-- The calls of `DealListen_` for connections that are all admitted, the
loop going on after each: `accept`, then `AddClient_`. -/
def acceptedCalls (s : WebServer) : List Accepted → List Call
  | [] => []
  | a :: rest =>
    (.accept s.listenFd_ :: (s.AddClient_ a.fd a.addr a.preFlag).getD []) ++ acceptedCalls s rest

end WebServer

/-- The server of `main.cpp` (trigger mode 3, timeout 60000 ms) listening on
descriptor 3, with `MAX_FD` 65536. -/
def mainServer : WebServer :=
  { MAX_FD := 65536, timeoutMS_ := 60000, listenFd_ := 3,
    listenEvent_ := (WebServer.InitEventMode_ 3).1, connEvent_ := (WebServer.InitEventMode_ 3).2 }

/-! ### Closing a connection and the timer -/

/-- The call of the function object that `AddClient_` gave to the timer:
`std::bind(&WebServer::CloseConn_, this, &users_[fd])()` is
`CloseConn_(&users_[fd])`. -/
def WebServer.runTimerCb (s : WebServer) : TimerCb → List Call
  | .closeConn fd => s.CloseConn_ fd

/-- Modelled from the spec: the entries that a sequence of calls has
registered with the timer.  `HeapTimer` is not among the files; the spec
gives the timer the operations `add(fd, timeoutMs, onExpire)` and
`adjust(fd, timeoutMs)`.  `add` registers `onExpire` under `fd`; `adjust`
moves a deadline and registers nothing.  The third call that `WebServer`
makes on the timer, `GetNextTick` in `Start`, asks for the next deadline and
is not among the modelled calls. -/
def timerEntries : List Call → List (Int × TimerCb)
  | [] => []
  | .timerAdd fd _ cb :: rest => (fd, cb) :: timerEntries rest
  | _ :: rest => timerEntries rest
/-! ### Copy lemmas -/

theorem take_set_self (a : Byte) : ∀ (l : List Byte) (n : Nat),
    (l.set n a).take n = l.take n := by
  intro l
  induction l with
  | nil => intro n; simp
  | cons x xs ih =>
    intro n
    cases n with
    | zero => simp
    | succ n => simp [ih]

theorem copyIn_length (src : List Byte) : ∀ (buf : List Byte) (pos : Nat),
    (copyIn buf pos src).length = buf.length := by
  induction src with
  | nil => intro buf pos; rfl
  | cons c cs ih => intro buf pos; simp [copyIn, ih]

theorem copyIn_eq (src : List Byte) : ∀ (buf : List Byte) (pos : Nat),
    pos + src.length ≤ buf.length →
    copyIn buf pos src = buf.take pos ++ src ++ buf.drop (pos + src.length) := by
  induction src with
  | nil => intro buf pos _; simp [copyIn]
  | cons c cs ih =>
    intro buf pos h
    simp only [List.length_cons] at h
    have hlt : pos < buf.length := by omega
    rw [copyIn, ih _ _ (by simp; omega)]
    rw [List.take_succ, List.drop_set_of_lt _ _ (by omega)]
    simp only [take_set_self, List.getElem?_set, List.length_set, hlt, if_true,
      Option.toList_some, List.append_assoc, List.singleton_append, List.cons_append]
    rw [show pos + 1 + cs.length = pos + (cs.length + 1) by omega]
    simp

theorem copyLoop_length : ∀ (n i d : Nat) (buf : List Byte),
    (copyLoop n i d buf).length = buf.length := by
  intro n
  induction n with
  | zero => intro i d buf; rfl
  | succ n ih => intro i d buf; simp [copyLoop, ih]

theorem copyLoop_eq : ∀ (n i d : Nat) (buf : List Byte),
    d ≤ i → i + n ≤ buf.length →
    copyLoop n i d buf = buf.take d ++ (buf.drop i).take n ++ buf.drop (d + n) := by
  intro n
  induction n with
  | zero => intro i d buf _ _; simp [copyLoop]
  | succ n ih =>
    intro i d buf hdi hin
    have hi : i < buf.length := by omega
    have hd : d < buf.length := by omega
    rw [copyLoop, ih _ _ _ (by omega) (by simp; omega)]
    rw [List.getD_eq_getElem _ _ hi]
    rw [List.take_succ, List.drop_set_of_lt _ _ (by omega : d < i + 1),
      List.drop_set_of_lt _ _ (by omega : d < d + 1 + n)]
    rw [List.drop_eq_getElem_cons hi]
    simp only [take_set_self, List.getElem?_set, List.length_set, hd, if_true,
      Option.toList_some, List.append_assoc, List.singleton_append, List.cons_append,
      List.take_succ_cons]
    rw [show d + 1 + n = d + (n + 1) by omega]
    simp

theorem bzero_all : ∀ (l : List Byte), bzero l l.length = List.replicate l.length 0 := by
  intro l
  induction l with
  | nil => rfl
  | cons x xs ih => simp [bzero, ih, List.replicate_succ]

/-! ### The three paths of `EnsureWriteable` -/

namespace Buffer

theorem readable_eq_drop_take (b : Buffer) (h : b.Inv) :
    b.readable = (b.buffer_.take b.writePos_).drop b.readPos_ := by
  unfold readable
  rw [List.take_drop]
  congr 2
  have := h.1
  omega

theorem readable_length (b : Buffer) (h : b.Inv) : b.readable.length = b.ReadableBytes := by
  unfold readable ReadableBytes
  have h1 := h.1
  have h2 := h.2
  simp
  omega

/-- Growth path of `MakeSpace_`: the store is resized to `writePos_ + len + 1`. -/
theorem MakeSpace_grow (b : Buffer) (len : Nat) (h : b.Inv)
    (hlt : b.WritableBytes + b.PrependableBytes < len) :
    ∃ b1, b.MakeSpace_ len = some b1 ∧ b1.Inv ∧ b1.readable = b.readable ∧
      b1.buffer_.length = b.writePos_ + len + 1 ∧
      b1.readPos_ = b.readPos_ ∧ b1.writePos_ = b.writePos_ := by
  obtain ⟨h1, h2⟩ := h
  refine ⟨{ b with buffer_ := vecResize b.buffer_ (b.writePos_ + len + 1) }, ?_, ?_, ?_, ?_, rfl, rfl⟩
  · simp [MakeSpace_, hlt]
  · refine ⟨h1, ?_⟩
    simp [vecResize]
    omega
  · have hinv' : ({ b with buffer_ := vecResize b.buffer_ (b.writePos_ + len + 1) } : Buffer).Inv := by
      refine ⟨h1, ?_⟩
      simp [vecResize]
      omega
    rw [readable_eq_drop_take _ hinv', readable_eq_drop_take _ ⟨h1, h2⟩]
    simp only [vecResize]
    rw [List.take_append_of_le_length (by simp; omega), List.take_take]
    congr 2
    omega
  · simp [vecResize]
    omega

/-- Compaction path of `MakeSpace_`: the readable bytes move to the front of the store. -/
theorem MakeSpace_compact (b : Buffer) (len : Nat) (h : b.Inv)
    (hge : ¬ b.WritableBytes + b.PrependableBytes < len) :
    ∃ b1, b.MakeSpace_ len = some b1 ∧ b1.Inv ∧ b1.readable = b.readable ∧
      b1.buffer_.length = b.buffer_.length ∧
      b1.readPos_ = 0 ∧ b1.writePos_ = b.writePos_ - b.readPos_ := by
  obtain ⟨h1, h2⟩ := h
  refine ⟨{ buffer_ := copyWithin b.buffer_ b.readPos_ b.writePos_ 0, readPos_ := 0,
            writePos_ := b.writePos_ - b.readPos_ }, ?_, ?_, ?_, ?_, rfl, rfl⟩
  · simp [MakeSpace_, hge, ReadableBytes]
  · refine ⟨Nat.zero_le _, ?_⟩
    simp [copyWithin, copyLoop_length]
    omega
  · simp only [readable, copyWithin]
    rw [copyLoop_eq _ _ _ _ (Nat.zero_le _) (by omega)]
    simp only [List.take_zero, List.nil_append, List.drop_zero, Nat.sub_zero]
    rw [List.take_append_of_le_length (by simp; omega), List.take_take]
    simp
  · simp [copyWithin, copyLoop_length]

/-- What `EnsureWriteable` guarantees on every path: it returns, the cursor
invariant and the readable bytes are kept, and the room asked for is there. -/
theorem EnsureWriteable_spec (b : Buffer) (len : Nat) (h : b.Inv) :
    ∃ b1, b.EnsureWriteable len = some b1 ∧ b1.Inv ∧ b1.readable = b.readable ∧
      len ≤ b1.WritableBytes ∧ b1.ReadableBytes = b.ReadableBytes := by
  by_cases hw : b.WritableBytes < len
  · by_cases hg : b.WritableBytes + b.PrependableBytes < len
    · obtain ⟨b1, hm, hinv, hr, hlen, hrp, hwp⟩ := MakeSpace_grow b len h hg
      have hroom : len ≤ b1.WritableBytes := by
        unfold WritableBytes; omega
      refine ⟨b1, ?_, hinv, hr, hroom, ?_⟩
      · simp [EnsureWriteable, hw, hm, hroom]
      · simp [ReadableBytes, hrp, hwp]
    · obtain ⟨b1, hm, hinv, hr, hlen, hrp, hwp⟩ := MakeSpace_compact b len h hg
      have h1 := h.1
      have h2 := h.2
      have hroom : len ≤ b1.WritableBytes := by
        unfold WritableBytes PrependableBytes at *; omega
      refine ⟨b1, ?_, hinv, hr, hroom, ?_⟩
      · simp [EnsureWriteable, hw, hm, hroom]
      · simp [ReadableBytes, hrp, hwp]
  · have hroom : len ≤ b.WritableBytes := by omega
    exact ⟨b, by simp [EnsureWriteable, hw, hroom], h, rfl, hroom, rfl⟩

/-- What `Append` does: it returns, keeps the cursor invariant, and the
readable bytes are the former ones followed by the appended ones. -/
theorem Append_spec (b : Buffer) (data : List Byte) (h : b.Inv) :
    ∃ b1, b.Append data = some b1 ∧ b1.Inv ∧ b1.readable = b.readable ++ data ∧
      b1.ReadableBytes = b.ReadableBytes + data.length := by
  obtain ⟨b0, he, hinv, hr, hroom, hrb⟩ := EnsureWriteable_spec b data.length h
  obtain ⟨h1, h2⟩ := hinv
  have hfit : b0.writePos_ + data.length ≤ b0.buffer_.length := by
    unfold WritableBytes at hroom; omega
  have hinv1 : (HasWritten { b0 with buffer_ := copyIn b0.buffer_ b0.writePos_ data }
      data.length).Inv := by
    refine ⟨?_, ?_⟩
    · simp [HasWritten]; omega
    · simp [HasWritten, copyIn_length]; omega
  refine ⟨_, by simp [Append, he], hinv1, ?_, ?_⟩
  · rw [readable_eq_drop_take _ hinv1, ← hr, readable_eq_drop_take _ ⟨h1, h2⟩]
    simp only [HasWritten]
    rw [copyIn_eq _ _ _ hfit, List.append_assoc,
      List.take_append_eq_append_take, List.take_take]
    simp only [List.length_take, Nat.min_eq_left h2, Nat.min_eq_left (Nat.le_add_right _ _),
      Nat.add_sub_cancel_left]
    rw [List.take_append_of_le_length (Nat.le_refl _), List.take_length,
      List.drop_append_of_le_length (by simp; omega),
      Nat.min_eq_right (Nat.le_add_right _ _)]
  · simp only [HasWritten, ReadableBytes] at *
    omega

theorem take_set_of_le (a : Byte) : ∀ (l : List Byte) (n m : Nat), m ≤ n →
    (l.set n a).take m = l.take m := by
  intro l
  induction l with
  | nil => intro n m _; simp
  | cons x xs ih =>
    intro n m h
    cases m with
    | zero => simp
    | succ m =>
      cases n with
      | zero => omega
      | succ n => simp [ih n m (by omega)]

/-- The loop of `std::copy` inside one store when the destination starts at
or after the end of the source: the source bytes are read as they were. -/
theorem copyLoop_eq_right : ∀ (n i d : Nat) (buf : List Byte),
    i + n ≤ d → d + n ≤ buf.length →
    copyLoop n i d buf = buf.take d ++ (buf.drop i).take n ++ buf.drop (d + n) := by
  intro n
  induction n with
  | zero => intro i d buf _ _; simp [copyLoop]
  | succ n ih =>
    intro i d buf hid hdn
    have hi : i < buf.length := by omega
    have hd : d < buf.length := by omega
    rw [copyLoop, ih _ _ _ (by omega) (by simp; omega)]
    rw [List.getD_eq_getElem _ _ hi]
    rw [List.take_succ, List.drop_set_of_lt _ _ (by omega : d < d + 1 + n)]
    rw [List.drop_set, if_neg (by omega : ¬ d < i + 1),
      take_set_of_le _ _ _ _ (by omega : n ≤ d - (i + 1))]
    rw [List.drop_eq_getElem_cons hi]
    simp only [take_set_self, List.getElem?_set, List.length_set, hd, if_true,
      Option.toList_some, List.append_assoc, List.singleton_append, List.cons_append,
      List.take_succ_cons]
    rw [show d + 1 + n = d + (n + 1) by omega]
    simp

/-- With the room already there, `Append` of bytes of the store below
`writePos_` is `Append` of those bytes: the store is not moved before the copy. -/
theorem AppendOwn_room (b : Buffer) (off len : Nat) (h : b.Inv)
    (hroom : len ≤ b.WritableBytes) (hsrc : off + len ≤ b.writePos_) :
    b.AppendOwn off len = b.Append ((b.buffer_.drop off).take len) := by
  obtain ⟨h1, h2⟩ := h
  have hW : b.writePos_ + len ≤ b.buffer_.length := by
    unfold WritableBytes at hroom; omega
  have hlen : ((b.buffer_.drop off).take len).length = len := by
    simp; omega
  have hnw : ¬ b.WritableBytes < len := by omega
  have he : b.EnsureWriteable len = some b := by
    simp [EnsureWriteable, hnw, hroom]
  simp only [AppendOwn, Append, hlen, he, Option.some_bind, if_true, Option.map_some']
  rw [copyLoop_eq_right _ _ _ _ hsrc hW, copyIn_eq _ _ _ (by rw [hlen]; exact hW), hlen]

end Buffer

/-! ### Sequences of calls -/

namespace BufOp

theorem retrievesOk_take : ∀ (ops : List BufOp) (b : Buffer) (k : Nat),
    retrievesOk b ops = true → retrievesOk b (ops.take k) = true := by
  intro ops
  induction ops with
  | nil => intro b k h; simpa using h
  | cons op ops ih =>
    intro b k h
    cases k with
    | zero => rfl
    | succ k =>
      simp only [retrievesOk, Bool.and_eq_true, List.take_succ_cons] at h ⊢
      refine ⟨h.1, ?_⟩
      cases hop : op.apply b with
      | none => rfl
      | some b1 =>
        have h2 := h.2
        rw [hop] at h2
        exact ih b1 k h2

/-- A sequence of calls that respects the obligation of `Retrieve` runs to its
end, keeps the cursor invariant, and the readable count follows the totals. -/
theorem run_spec : ∀ (ops : List BufOp) (b : Buffer),
    b.Inv → retrievesOk b ops = true →
    ∃ b1, run b ops = some b1 ∧ b1.Inv ∧
      b1.ReadableBytes + retrieved ops = b.ReadableBytes + appended ops := by
  intro ops
  induction ops with
  | nil => intro b h _; exact ⟨b, rfl, h, rfl⟩
  | cons op ops ih =>
    intro b h hok
    simp only [retrievesOk, Bool.and_eq_true] at hok
    cases op with
    | append data =>
      obtain ⟨b0, ha, hinv, _, hrb⟩ := Buffer.Append_spec b data h
      have h2 := hok.2
      simp only [apply, ha] at h2
      obtain ⟨b1, hrun, hinv1, hcount⟩ := ih b0 hinv h2
      refine ⟨b1, by simp [run, apply, ha, hrun], hinv1, ?_⟩
      simp only [retrieved, appended]
      omega
    | retrieve len =>
      have hle : len ≤ b.ReadableBytes := by simpa using hok.1
      have hr : b.Retrieve len = some { b with readPos_ := b.readPos_ + len } := by
        simp [Buffer.Retrieve, hle]
      have hinv : ({ b with readPos_ := b.readPos_ + len } : Buffer).Inv := by
        obtain ⟨h1, h2⟩ := h
        unfold Buffer.ReadableBytes at hle
        exact ⟨by show b.readPos_ + len ≤ b.writePos_; omega, h2⟩
      have h2 := hok.2
      simp only [apply, hr] at h2
      obtain ⟨b1, hrun, hinv1, hcount⟩ := ih _ hinv h2
      refine ⟨b1, by simp [run, apply, hr, hrun], hinv1, ?_⟩
      simp only [retrieved, appended, Buffer.ReadableBytes] at *
      obtain ⟨h1, _⟩ := h
      omega

end BufOp

theorem Buffer.ctor_Inv (n : Nat) : (Buffer.ctor n).Inv := by
  simp [Buffer.ctor, Buffer.Inv]

/-! ### The claims on the buffer -/

/-- C1, the claim as stated, fails for a byte string that lies in the store of
the buffer itself.  On the full buffer of capacity 4 with the bytes 2, 3, 4
readable at `[1, 4)`, `Append(Peek(), 1)` is given the byte string `2`.
`EnsureWriteable(1)` compacts the store to 2, 3, 4, 4 first; the pointer now
designates the byte 3, which is the one copied: the readable region is
2, 3, 4, 3 and not 2, 3, 4, 2. -/
theorem C1_source_in_own_store_counterexample :
    (⟨[1, 2, 3, 4], 1, 4⟩ : Buffer).Inv ∧
    (⟨[1, 2, 3, 4], 1, 4⟩ : Buffer).Peek.take 1 = [2] ∧
    (⟨[1, 2, 3, 4], 1, 4⟩ : Buffer).EnsureWriteable 1 = some ⟨[2, 3, 4, 4], 0, 3⟩ ∧
    (⟨[1, 2, 3, 4], 1, 4⟩ : Buffer).AppendOwn 1 1 = some ⟨[2, 3, 4, 3], 0, 4⟩ ∧
    (⟨[2, 3, 4, 3], 0, 4⟩ : Buffer).readable = [2, 3, 4, 3] ∧
    (⟨[2, 3, 4, 3], 0, 4⟩ : Buffer).readable ≠
      (⟨[1, 2, 3, 4], 1, 4⟩ : Buffer).readable ++ (⟨[1, 2, 3, 4], 1, 4⟩ : Buffer).Peek.take 1 := by
  decide

/-- C1, amended: on a buffer with `readPos_ <= writePos_ <= buffer_.size()`
and for a byte string `data` of length `len` that lies outside the store of
the buffer, `Append(data, len)` returns and the readable region afterwards
holds the bytes that were readable before followed by the `len` bytes of
`data`, in order, whichever path `EnsureWriteable` takes (`len = 0`
included).  The same holds for a byte string of the store itself that lies
below `writePos_`, when `WritableBytes() >= len`: the store is then not
moved before the copy. -/
theorem C1_append_keeps_then_adds (b : Buffer) (data : List Byte) (h : b.Inv) :
    (∃ b1, b.Append data = some b1 ∧ b1.readable = b.readable ++ data) ∧
    (∀ off len : Nat, len ≤ b.WritableBytes → off + len ≤ b.writePos_ →
      ∃ b1, b.AppendOwn off len = some b1 ∧
        b1.readable = b.readable ++ (b.buffer_.drop off).take len) := by
  constructor
  · obtain ⟨b1, ha, _, hr, _⟩ := Buffer.Append_spec b data h
    exact ⟨b1, ha, hr⟩
  · intro off len hroom hsrc
    obtain ⟨b1, ha, _, hr, _⟩ := Buffer.Append_spec b ((b.buffer_.drop off).take len) h
    exact ⟨b1, by rw [Buffer.AppendOwn_room b off len h hroom hsrc, ha], hr⟩

/-- C1 amended, at a buffer of capacity 4 holding the bytes 3, 4 at `[2, 4)`:
appending one byte from outside goes through the compaction path; and at a
buffer with room, appending its own first byte. -/
theorem C1_append_keeps_then_adds_witness :
    (⟨[1, 2, 3, 4], 2, 4⟩ : Buffer).Inv ∧
    (∃ b1, (⟨[1, 2, 3, 4], 2, 4⟩ : Buffer).Append [9] = some b1 ∧
      b1.readable = (⟨[1, 2, 3, 4], 2, 4⟩ : Buffer).readable ++ [9]) ∧
    (⟨[1, 2, 0, 0], 0, 2⟩ : Buffer).Inv ∧
    (∃ b1, (⟨[1, 2, 0, 0], 0, 2⟩ : Buffer).AppendOwn 0 1 = some b1 ∧ b1.readable = [1, 2, 1]) :=
  ⟨by decide, (C1_append_keeps_then_adds ⟨[1, 2, 3, 4], 2, 4⟩ [9] (by decide)).1,
    by decide,
    (C1_append_keeps_then_adds ⟨[1, 2, 0, 0], 0, 2⟩ [] (by decide)).2 0 1 (by decide) (by decide)⟩

/-- The function `AppendOwn` evaluated: with room already there the store is not
moved before the copy and the byte appended is the one designated at the
call; `AppendSelf` after a compaction appends 2, 2 where the buffer held
1, 2; on the growth path the pointer is lost. -/
theorem AppendOwn_evaluated :
    (⟨[1, 2, 0, 0], 0, 2⟩ : Buffer).AppendOwn 0 1 = some ⟨[1, 2, 1, 0], 0, 3⟩ ∧
    (⟨[9, 1, 2, 0], 1, 3⟩ : Buffer).AppendSelf = some ⟨[1, 2, 2, 2], 0, 4⟩ ∧
    (⟨[1, 2, 3, 4], 0, 4⟩ : Buffer).AppendOwn 0 1 = none := by
  decide

/-- The three paths of `EnsureWriteable` under `Append`, evaluated: room
already there, compaction, growth. -/
theorem Append_paths_evaluated :
    (⟨[1, 2, 0, 0], 0, 2⟩ : Buffer).Append [9] = some ⟨[1, 2, 9, 0], 0, 3⟩ ∧
    (⟨[1, 2, 3, 4], 2, 4⟩ : Buffer).Append [9] = some ⟨[3, 4, 9, 4], 0, 3⟩ ∧
    (⟨[1, 2, 3, 4], 0, 4⟩ : Buffer).Append [9] = some ⟨[1, 2, 3, 4, 9, 0], 0, 5⟩ ∧
    (⟨[1, 2, 3, 4], 0, 4⟩ : Buffer).Append [] = some ⟨[1, 2, 3, 4], 0, 4⟩ := by
  decide

/-- C2: from a freshly constructed buffer, after every call of a sequence of
`Append` and `Retrieve` calls whose `Retrieve(len)` are made with
`len <= ReadableBytes()`: the calls made so far have returned,
`ReadableBytes()` is the total appended minus the total retrieved,
`readPos_ <= writePos_ <= buffer_.size()`, and the three region sizes add up
to `buffer_.size()` over the natural numbers. -/
theorem C2_counts_and_cursors (initBuffSize : Nat) (ops : List BufOp)
    (hok : BufOp.retrievesOk (Buffer.ctor initBuffSize) ops = true) (k : Nat) :
    ∃ b, BufOp.run (Buffer.ctor initBuffSize) (ops.take k) = some b ∧
      BufOp.retrieved (ops.take k) ≤ BufOp.appended (ops.take k) ∧
      b.ReadableBytes = BufOp.appended (ops.take k) - BufOp.retrieved (ops.take k) ∧
      b.readPos_ ≤ b.writePos_ ∧ b.writePos_ ≤ b.buffer_.length ∧
      b.WritableBytes + b.ReadableBytes + b.PrependableBytes = b.buffer_.length := by
  obtain ⟨b, hrun, hinv, hcount⟩ :=
    BufOp.run_spec (ops.take k) _ (Buffer.ctor_Inv initBuffSize) (BufOp.retrievesOk_take ops _ k hok)
  have h0 : (Buffer.ctor initBuffSize).ReadableBytes = 0 := rfl
  obtain ⟨h1, h2⟩ := hinv
  refine ⟨b, hrun, by omega, by omega, h1, h2, ?_⟩
  unfold Buffer.WritableBytes Buffer.ReadableBytes Buffer.PrependableBytes
  omega

/-- C2 on a buffer of capacity 2: append 3 bytes (growth), retrieve 2,
append 2 (compaction), retrieve 3, seen after all four calls. -/
theorem C2_counts_and_cursors_witness :
    BufOp.retrievesOk (Buffer.ctor 2)
      [.append [1, 2, 3], .retrieve 2, .append [4, 5], .retrieve 3] = true ∧
    ∃ b, BufOp.run (Buffer.ctor 2)
        (([.append [1, 2, 3], .retrieve 2, .append [4, 5], .retrieve 3] : List BufOp).take 4)
          = some b ∧
      BufOp.retrieved (([.append [1, 2, 3], .retrieve 2, .append [4, 5], .retrieve 3]
        : List BufOp).take 4) ≤
      BufOp.appended (([.append [1, 2, 3], .retrieve 2, .append [4, 5], .retrieve 3]
        : List BufOp).take 4) ∧
      b.ReadableBytes =
        BufOp.appended (([.append [1, 2, 3], .retrieve 2, .append [4, 5], .retrieve 3]
          : List BufOp).take 4) -
        BufOp.retrieved (([.append [1, 2, 3], .retrieve 2, .append [4, 5], .retrieve 3]
          : List BufOp).take 4) ∧
      b.readPos_ ≤ b.writePos_ ∧ b.writePos_ ≤ b.buffer_.length ∧
      b.WritableBytes + b.ReadableBytes + b.PrependableBytes = b.buffer_.length :=
  ⟨by decide, C2_counts_and_cursors 2 _ (by decide) 4⟩

/-- The first case of `ReadFd`: the received bytes fit in the writable region. -/
theorem Buffer.ReadFd_fits (b : Buffer) (data : List Byte) (h : b.Inv)
    (hfit : data.length ≤ b.WritableBytes) :
    ∃ b1, b.ReadFd (.ok data) = some ((data.length : Int), b1, none) ∧ b1.Inv ∧
      b1.readable = b.readable ++ data ∧
      b1.writePos_ = b.writePos_ + data.length ∧ b1.readPos_ = b.readPos_ ∧
      b1.buffer_.length = b.buffer_.length := by
  obtain ⟨h1, h2⟩ := h
  have hroom : b.writePos_ + data.length ≤ b.buffer_.length := by
    unfold Buffer.WritableBytes at hfit; omega
  have hinv1 : (⟨copyIn b.buffer_ b.writePos_ data, b.readPos_,
      b.writePos_ + data.length⟩ : Buffer).Inv :=
    ⟨by show b.readPos_ ≤ b.writePos_ + data.length; omega,
     by show b.writePos_ + data.length ≤ (copyIn b.buffer_ b.writePos_ data).length
        rw [copyIn_length]; exact hroom⟩
  refine ⟨⟨copyIn b.buffer_ b.writePos_ data, b.readPos_, b.writePos_ + data.length⟩,
    ?_, hinv1, ?_, rfl, rfl, ?_⟩
  · simp [Buffer.ReadFd, hfit, List.take_of_length_le hfit]
  · rw [Buffer.readable_eq_drop_take _ hinv1, Buffer.readable_eq_drop_take _ ⟨h1, h2⟩]
    simp only
    rw [copyIn_eq _ _ _ hroom, List.append_assoc,
      List.take_append_eq_append_take, List.take_take]
    simp only [List.length_take, Nat.min_eq_left h2, Nat.min_eq_left (Nat.le_add_right _ _),
      Nat.add_sub_cancel_left]
    rw [List.take_append_of_le_length (Nat.le_refl _), List.take_length,
      List.drop_append_of_le_length (by simp; omega),
      Nat.min_eq_right (Nat.le_add_right _ _)]
  · simp [copyIn_length]

/-- The second case of `ReadFd`: more bytes than the writable region holds. -/
theorem Buffer.ReadFd_spills (b : Buffer) (data : List Byte) (h : b.Inv)
    (hbound : data.length ≤ b.WritableBytes + Buffer.scratchSize)
    (hmore : b.WritableBytes < data.length) :
    ∃ b1, b.ReadFd (.ok data) = some ((data.length : Int), b1, none) ∧ b1.Inv ∧
      b1.readable = b.readable ++ data ∧
      (b.readFdFull data).writePos_ = b.buffer_.length ∧
      (b.readFdFull data).Append (data.drop b.WritableBytes) = some b1 := by
  obtain ⟨h1, h2⟩ := h
  have hW : b.writePos_ + b.WritableBytes = b.buffer_.length := by
    unfold Buffer.WritableBytes; omega
  have htake : (data.take b.WritableBytes).length = b.WritableBytes := by
    simp; omega
  have hroom : b.writePos_ + (data.take b.WritableBytes).length ≤ b.buffer_.length := by
    omega
  have hfullInv : (b.readFdFull data).Inv := by
    refine ⟨?_, Nat.le_refl _⟩
    show b.readPos_ ≤ (copyIn b.buffer_ b.writePos_ (data.take b.WritableBytes)).length
    rw [copyIn_length]; omega
  have hfullReadable : (b.readFdFull data).readable = b.readable ++ data.take b.WritableBytes := by
    rw [Buffer.readable_eq_drop_take _ hfullInv, Buffer.readable_eq_drop_take _ ⟨h1, h2⟩]
    simp only [Buffer.readFdFull]
    rw [List.take_length, copyIn_eq _ _ _ hroom, htake, hW]
    simp only [List.drop_length, List.append_nil]
    rw [List.drop_append_of_le_length (by simp; omega)]
  obtain ⟨b1, ha, hinv1, hr1, _⟩ :=
    Buffer.Append_spec (b.readFdFull data) (data.drop b.WritableBytes) hfullInv
  have hscratch : List.take (data.length - b.WritableBytes)
      (List.take Buffer.scratchSize (List.drop b.WritableBytes data)) = data.drop b.WritableBytes := by
    rw [List.take_take, List.take_of_length_le]
    simp
    omega
  refine ⟨b1, ?_, hinv1, ?_, ?_, ha⟩
  · have hnle : ¬ data.length ≤ b.WritableBytes := by omega
    simp only [Buffer.ReadFd, Int.toNat_ofNat, hnle, if_false, hscratch]
    simp only [Buffer.readFdFull] at ha
    simp [ha]
  · rw [hr1, hfullReadable, List.append_assoc, List.take_append_drop]
  · simp [Buffer.readFdFull, copyIn_length]

/-- C3: on a buffer with the cursor invariant, when the scatter read receives
`n = data.length <= WritableBytes() + 65535` bytes, `ReadFd` returns `n`
(nothing is stored through `saveErrno`) and the readable region afterwards is
the former one followed by all received bytes.  When `n` fits in the writable
region only `writePos_` moves, by `n`; otherwise `writePos_` is first set to
`buffer_.size()` and the bytes of the stack area are appended. -/
theorem C3_readfd_loses_nothing (b : Buffer) (data : List Byte) (h : b.Inv)
    (hbound : data.length ≤ b.WritableBytes + Buffer.scratchSize) :
    ∃ b1, b.ReadFd (.ok data) = some ((data.length : Int), b1, none) ∧
      b1.readable = b.readable ++ data ∧
      (data.length ≤ b.WritableBytes →
        b1.writePos_ = b.writePos_ + data.length ∧ b1.readPos_ = b.readPos_ ∧
        b1.buffer_.length = b.buffer_.length) ∧
      (b.WritableBytes < data.length →
        (b.readFdFull data).writePos_ = b.buffer_.length ∧
        (b.readFdFull data).readPos_ = b.readPos_ ∧
        (data.drop b.WritableBytes).length = data.length - b.WritableBytes ∧
        (b.readFdFull data).Append (data.drop b.WritableBytes) = some b1) := by
  by_cases hfit : data.length ≤ b.WritableBytes
  · obtain ⟨b1, hr, _, hread, hw, hrp, hlen⟩ := Buffer.ReadFd_fits b data h hfit
    exact ⟨b1, hr, hread, fun _ => ⟨hw, hrp, hlen⟩, fun hlt => absurd hfit (by omega)⟩
  · obtain ⟨b1, hr, _, hread, hw, ha⟩ := Buffer.ReadFd_spills b data h hbound (by omega)
    exact ⟨b1, hr, hread, fun hle => absurd hle hfit,
      fun _ => ⟨hw, rfl, by simp, ha⟩⟩

/-- C3 on a buffer of capacity 4 with one writable byte, receiving three
bytes: one lands in the store, two in the stack area. -/
theorem C3_readfd_loses_nothing_witness :
    (⟨[1, 2, 3, 0], 1, 3⟩ : Buffer).Inv ∧
    ([7, 8, 9] : List Byte).length ≤ (⟨[1, 2, 3, 0], 1, 3⟩ : Buffer).WritableBytes + Buffer.scratchSize ∧
    ∃ b1, (⟨[1, 2, 3, 0], 1, 3⟩ : Buffer).ReadFd (.ok [7, 8, 9])
        = some ((([7, 8, 9] : List Byte).length : Int), b1, none) ∧
      b1.readable = (⟨[1, 2, 3, 0], 1, 3⟩ : Buffer).readable ++ [7, 8, 9] ∧
      (([7, 8, 9] : List Byte).length ≤ (⟨[1, 2, 3, 0], 1, 3⟩ : Buffer).WritableBytes →
        b1.writePos_ = (⟨[1, 2, 3, 0], 1, 3⟩ : Buffer).writePos_ + ([7, 8, 9] : List Byte).length ∧
        b1.readPos_ = (⟨[1, 2, 3, 0], 1, 3⟩ : Buffer).readPos_ ∧
        b1.buffer_.length = (⟨[1, 2, 3, 0], 1, 3⟩ : Buffer).buffer_.length) ∧
      ((⟨[1, 2, 3, 0], 1, 3⟩ : Buffer).WritableBytes < ([7, 8, 9] : List Byte).length →
        ((⟨[1, 2, 3, 0], 1, 3⟩ : Buffer).readFdFull [7, 8, 9]).writePos_
          = (⟨[1, 2, 3, 0], 1, 3⟩ : Buffer).buffer_.length ∧
        ((⟨[1, 2, 3, 0], 1, 3⟩ : Buffer).readFdFull [7, 8, 9]).readPos_
          = (⟨[1, 2, 3, 0], 1, 3⟩ : Buffer).readPos_ ∧
        (([7, 8, 9] : List Byte).drop (⟨[1, 2, 3, 0], 1, 3⟩ : Buffer).WritableBytes).length
          = ([7, 8, 9] : List Byte).length - (⟨[1, 2, 3, 0], 1, 3⟩ : Buffer).WritableBytes ∧
        ((⟨[1, 2, 3, 0], 1, 3⟩ : Buffer).readFdFull [7, 8, 9]).Append
          (([7, 8, 9] : List Byte).drop (⟨[1, 2, 3, 0], 1, 3⟩ : Buffer).WritableBytes) = some b1) :=
  ⟨by decide, by decide, C3_readfd_loses_nothing ⟨[1, 2, 3, 0], 1, 3⟩ [7, 8, 9] (by decide) (by decide)⟩

/-- The function `ReadFd` evaluated: a read that fits, a read that spills into the stack
area (growth), and a failed `readv`. -/
theorem ReadFd_evaluated :
    (⟨[1, 2, 0, 0], 0, 2⟩ : Buffer).ReadFd (.ok [7]) = some (1, ⟨[1, 2, 7, 0], 0, 3⟩, none) ∧
    (⟨[1, 2, 3, 0], 1, 3⟩ : Buffer).ReadFd (.ok [7, 8, 9])
      = some (3, ⟨[1, 2, 3, 7, 8, 9, 0], 1, 6⟩, none) ∧
    (⟨[1, 2, 3, 0], 1, 3⟩ : Buffer).ReadFd (.fail 11) = some (-1, ⟨[1, 2, 3, 0], 1, 3⟩, some 11) := by
  decide

namespace Buffer

end Buffer

/-- The function `EnsureWriteable` evaluated on its two `MakeSpace_` paths: growth to
`writePos_ + N + 1 = 4 + 3 + 1`, and compaction. -/
theorem EnsureWriteable_evaluated :
    (⟨[1, 2, 3, 4], 2, 4⟩ : Buffer).EnsureWriteable 3 = some ⟨[1, 2, 3, 4, 0, 0, 0, 0], 2, 4⟩ ∧
    (⟨[1, 2, 3, 4], 2, 4⟩ : Buffer).EnsureWriteable 2 = some ⟨[3, 4, 3, 4], 0, 2⟩ := by
  decide

/-- C5: on a buffer with the cursor invariant, `RetrieveAllToStr()` returns
the bytes of the readable region in order and leaves the buffer equal to a
freshly constructed one of the same capacity: both cursors 0, the capacity
unchanged, every byte of the store zero.  So every sequence of `Append` and
`Retrieve` calls gives afterwards what it gives on that fresh buffer. -/
theorem C5_retrieve_all_resets (b : Buffer) (_h : b.Inv) :
    b.RetrieveAllToStr.1 = b.readable ∧
    b.RetrieveAllToStr.2 = Buffer.ctor b.buffer_.length ∧
    b.RetrieveAllToStr.2.readPos_ = 0 ∧ b.RetrieveAllToStr.2.writePos_ = 0 ∧
    b.RetrieveAllToStr.2.buffer_.length = b.buffer_.length ∧
    (∀ x ∈ b.RetrieveAllToStr.2.buffer_, x = 0) ∧
    ∀ ops : List BufOp,
      BufOp.run b.RetrieveAllToStr.2 ops = BufOp.run (Buffer.ctor b.buffer_.length) ops := by
  have hfresh : b.RetrieveAllToStr.2 = Buffer.ctor b.buffer_.length := by
    simp [Buffer.RetrieveAllToStr, Buffer.RetrieveAll, Buffer.ctor, bzero_all]
  refine ⟨rfl, hfresh, rfl, rfl, ?_, ?_, fun ops => by rw [hfresh]⟩
  · rw [hfresh]; simp [Buffer.ctor]
  · rw [hfresh]
    intro x hx
    exact List.eq_of_mem_replicate hx

/-- C5 on a buffer of capacity 4 holding the bytes 2, 3 at `[1, 3)`. -/
theorem C5_retrieve_all_resets_witness :
    (⟨[1, 2, 3, 4], 1, 3⟩ : Buffer).Inv ∧
    (⟨[1, 2, 3, 4], 1, 3⟩ : Buffer).RetrieveAllToStr.1 = [2, 3] ∧
    (⟨[1, 2, 3, 4], 1, 3⟩ : Buffer).RetrieveAllToStr.2 = Buffer.ctor 4 ∧
    (⟨[1, 2, 3, 4], 1, 3⟩ : Buffer).RetrieveAllToStr.2.readPos_ = 0 ∧
    (⟨[1, 2, 3, 4], 1, 3⟩ : Buffer).RetrieveAllToStr.2.writePos_ = 0 ∧
    (⟨[1, 2, 3, 4], 1, 3⟩ : Buffer).RetrieveAllToStr.2.buffer_.length = 4 ∧
    (∀ x ∈ (⟨[1, 2, 3, 4], 1, 3⟩ : Buffer).RetrieveAllToStr.2.buffer_, x = 0) ∧
    ∀ ops : List BufOp,
      BufOp.run (⟨[1, 2, 3, 4], 1, 3⟩ : Buffer).RetrieveAllToStr.2 ops
        = BufOp.run (Buffer.ctor 4) ops :=
  ⟨by decide, C5_retrieve_all_resets ⟨[1, 2, 3, 4], 1, 3⟩ (by decide)⟩

theorem EnsureWriteable_sz_evaluated :
    (⟨[1, 2, 3, 4], 0, 4⟩ : Buffer).EnsureWriteable_sz (2 ^ 64 - 5) = some ⟨[], 0, 4⟩ ∧
    (⟨[1, 2, 0, 0], 0, 2⟩ : Buffer).EnsureWriteable_sz (2 ^ 64 - 1) = none ∧
    (⟨[1, 2, 3, 4], 2, 4⟩ : Buffer).EnsureWriteable_sz 3 = some ⟨[1, 2, 3, 4, 0, 0, 0, 0], 2, 4⟩ ∧
    (⟨[1, 2, 3, 4], 2, 4⟩ : Buffer).EnsureWriteable_sz 2 = some ⟨[3, 4, 3, 4], 0, 2⟩ := by
  decide

/-! ## SqlConnPool: proofs -/

theorem SqlConnPool_eval_healthy :
    SqlConnPool.Init SqlConnPool.ctor healthyEnv 2
      = some ⟨2, 0, 0, [some 0, some 1], 2⟩ ∧
    PoolOp.run ⟨⟨2, 0, 0, [some 0, some 1], 2⟩, []⟩ [.getConn, .getConn, .getConn, .freeConn (some 0)]
      = .done ⟨⟨2, 0, 0, [some 0], 1⟩, [1]⟩ := by
  decide

theorem SqlConnPool_eval_down :
    SqlConnPool.Init SqlConnPool.ctor downEnv 2 = some ⟨2, 0, 0, [none, none], 2⟩ ∧
    PoolOp.run ⟨⟨2, 0, 0, [none, none], 2⟩, []⟩ [.getConn] = .done ⟨⟨2, 0, 0, [none], 1⟩, []⟩ := by
  decide

namespace SqlConnPool

theorem initLoop_all_connected (env : MysqlEnv) : ∀ (n i : Nat) (q : List Handle),
    (∀ j, i ≤ j → j < i + n → env.initOk j = true ∧ env.connectOk j = true) →
    initLoop env n i q = some (q ++ (List.range' i n).map some) := by
  intro n
  induction n with
  | zero => intro i q _; simp [initLoop]
  | succ n ih =>
    intro i q h
    obtain ⟨hi, hc⟩ := h i (Nat.le_refl _) (by omega)
    rw [initLoop, if_pos hi, if_pos hc, ih (i + 1) _ (fun j h1 h2 => h j (by omega) (by omega))]
    simp [List.range'_succ]

/-- When `Init` returns, every `mysql_init` of its loop returned an object. -/
theorem initLoop_some_initOk (env : MysqlEnv) : ∀ (n i : Nat) (q q1 : List Handle),
    initLoop env n i q = some q1 → ∀ j, i ≤ j → j < i + n → env.initOk j = true := by
  intro n
  induction n with
  | zero => intro i q q1 _ j h1 h2; omega
  | succ n ih =>
    intro i q q1 h j h1 h2
    rw [initLoop] at h
    by_cases hi : env.initOk i = true
    · rw [if_pos hi] at h
      by_cases hj : j = i
      · rw [hj]; exact hi
      · exact ih (i + 1) _ q1 h j (by omega) (by omega)
    · rw [if_neg hi] at h
      exact absurd h (by simp)

/-- The queue that `Init` leaves has `connSize` entries and the semaphore has
that value, whatever the connections did. -/
theorem initLoop_length (env : MysqlEnv) : ∀ (n i : Nat) (q q1 : List Handle),
    initLoop env n i q = some q1 → q1.length = q.length + n := by
  intro n
  induction n with
  | zero => intro i q q1 h; simp [initLoop] at h; simp [h]
  | succ n ih =>
    intro i q q1 h
    rw [initLoop] at h
    by_cases hi : env.initOk i = true
    · rw [if_pos hi] at h
      rw [ih _ _ _ h]
      simp
      omega
    · rw [if_neg hi] at h
      exact absurd h (by simp)

/-- In every reachable state the semaphore counts the queued handles. -/
theorem Reachable.sem_eq_length {p : SqlConnPool} (h : Reachable p) :
    p.semId_ = p.connQue_.length := by
  induction h with
  | init env connSize p hinit =>
    unfold Init at hinit
    by_cases hpos : 0 < connSize
    · rw [if_pos hpos] at hinit
      cases hl : initLoop env connSize.toNat 0 ctor.connQue_ with
      | none => rw [hl] at hinit; exact absurd hinit (by simp)
      | some q =>
        rw [hl] at hinit
        simp only [Option.map_some', Option.some.injEq] at hinit
        subst hinit
        have := initLoop_length env _ _ _ _ hl
        simp [ctor] at this
        simp [this]
    · rw [if_neg hpos] at hinit
      exact absurd hinit (by simp)
  | getConn p p1 sql calls _ hget ih =>
    unfold GetConn at hget
    cases hq : p.connQue_ with
    | nil =>
      rw [hq] at hget
      simp only [Outcome.done.injEq, Prod.mk.injEq] at hget
      obtain ⟨_, hp, _⟩ := hget
      subst hp
      exact ih
    | cons x rest =>
      rw [hq] at hget
      by_cases hz : p.semId_ = 0
      · simp [hz] at hget
      · simp only [hz, if_false, Outcome.done.injEq, Prod.mk.injEq] at hget
        obtain ⟨_, hp, _⟩ := hget
        subst hp
        rw [hq] at ih
        simp at ih ⊢
        omega
  | freeConn p p1 sql calls _ hfree ih =>
    unfold FreeConn at hfree
    cases sql with
    | none => simp at hfree
    | some x =>
      simp only [Outcome.done.injEq, Prod.mk.injEq] at hfree
      obtain ⟨hp, _⟩ := hfree
      subst hp
      simp [ih]

end SqlConnPool

namespace PoolOp

theorem freesOk_take : ∀ (ops : List PoolOp) (s : PoolSt) (k : Nat),
    freesOk s ops = true → freesOk s (ops.take k) = true := by
  intro ops
  induction ops with
  | nil => intro s k h; simpa using h
  | cons op ops ih =>
    intro s k h
    cases k with
    | zero => rfl
    | succ k =>
      simp only [freesOk, Bool.and_eq_true, List.take_succ_cons] at h ⊢
      refine ⟨h.1, ?_⟩
      cases hop : op.apply s with
      | done s1 =>
        have h2 := h.2
        rw [hop] at h2
        exact ih s1 k h2
      | abort => rfl
      | blocks => rfl

/-- A call of `GetConn` on a pool of established connections returns and keeps the
conservation of handles. -/
theorem apply_getConn_conserved (C : Nat) (s : PoolSt) (h : s.Conserved C) :
    ∃ s1, apply s getConn = .done s1 ∧ s1.Conserved C := by
  obtain ⟨l, hq, hnd, hlen, hsem⟩ := h
  cases l with
  | nil =>
    refine ⟨{ pool := s.pool, held := s.held }, ?_, ⟨[], hq, hnd, hlen, hsem⟩⟩
    simp only [List.map_nil] at hq
    simp [apply, SqlConnPool.GetConn, hq]
  | cons x l =>
    have hz : s.pool.semId_ ≠ 0 := by simp [hsem]
    simp only [List.map_cons] at hq
    refine ⟨{ pool := { s.pool with semId_ := s.pool.semId_ - 1, connQue_ := l.map some },
              held := s.held ++ [x] }, ?_, ⟨l, rfl, ?_, ?_, ?_⟩⟩
    · simp [apply, SqlConnPool.GetConn, hq, hz]
    · have hp : (l ++ (s.held ++ [x])).Perm (x :: l ++ s.held) := by
        rw [← List.append_assoc]
        exact List.perm_append_singleton x (l ++ s.held)
      exact hp.nodup_iff.mpr hnd
    · simp only [List.length_cons, List.length_append, List.length_singleton,
        List.length_nil] at hlen ⊢
      omega
    · simp only [List.length_cons] at hsem
      show s.pool.semId_ - 1 = l.length
      omega

/-- A call of `FreeConn` of a held handle returns and keeps the conservation of handles. -/
theorem apply_freeConn_conserved (C : Nat) (s : PoolSt) (x : Nat) (h : s.Conserved C)
    (hx : x ∈ s.held) :
    ∃ s1, apply s (freeConn (some x)) = .done s1 ∧ s1.Conserved C := by
  obtain ⟨l, hq, hnd, hlen, hsem⟩ := h
  refine ⟨{ pool := { s.pool with connQue_ := s.pool.connQue_ ++ [some x],
                                  semId_ := s.pool.semId_ + 1 },
            held := s.held.erase x }, ?_, ⟨l ++ [x], ?_, ?_, ?_, ?_⟩⟩
  · simp [apply, SqlConnPool.FreeConn]
  · simp [hq]
  · have hp : (l ++ [x] ++ s.held.erase x).Perm (l ++ s.held) := by
      rw [List.append_assoc]
      exact List.Perm.append_left l (List.perm_cons_erase hx).symm
    exact hp.nodup_iff.mpr hnd
  · have := List.length_erase_of_mem hx
    have hpos : 0 < s.held.length := List.length_pos_of_mem hx
    simp only [List.length_append, List.length_singleton, this]
    omega
  · simp [hsem]

/-- A sequence of calls that respects the obligation of `FreeConn` runs to its
end on a pool of established connections and keeps the conservation of handles. -/
theorem run_conserved (C : Nat) : ∀ (ops : List PoolOp) (s : PoolSt),
    s.Conserved C → freesOk s ops = true →
    ∃ s1, run s ops = .done s1 ∧ s1.Conserved C := by
  intro ops
  induction ops with
  | nil => intro s h _; exact ⟨s, rfl, h⟩
  | cons op ops ih =>
    intro s h hok
    simp only [freesOk, Bool.and_eq_true] at hok
    obtain ⟨hpre, hrest⟩ := hok
    have hstep : ∃ s1, apply s op = .done s1 ∧ s1.Conserved C := by
      cases op with
      | getConn => exact apply_getConn_conserved C s h
      | freeConn sql =>
        cases sql with
        | none => simp at hpre
        | some x => exact apply_freeConn_conserved C s x h (by simpa using hpre)
    obtain ⟨s1, hs1, hc1⟩ := hstep
    rw [hs1] at hrest
    obtain ⟨s2, hrun, hc2⟩ := ih s1 hc1 hrest
    exact ⟨s2, by simp [run, hs1, hrun], hc2⟩

end PoolOp

/-- After `Init` with every connection established the pool holds the `C`
connection objects in its queue and no caller holds one. -/
theorem SqlConnPool.Init_conserved (env : MysqlEnv) (connSize : Int) (p : SqlConnPool)
    (hinit : SqlConnPool.Init SqlConnPool.ctor env connSize = some p)
    (hconn : ∀ i, i < connSize.toNat → env.connectOk i = true) :
    0 < connSize ∧ PoolSt.Conserved connSize.toNat { pool := p, held := [] } := by
  unfold SqlConnPool.Init at hinit
  by_cases hpos : 0 < connSize
  · rw [if_pos hpos] at hinit
    cases hl : SqlConnPool.initLoop env connSize.toNat 0 SqlConnPool.ctor.connQue_ with
    | none => rw [hl] at hinit; exact absurd hinit (by simp)
    | some q =>
      have hok := SqlConnPool.initLoop_some_initOk env _ _ _ _ hl
      rw [SqlConnPool.initLoop_all_connected env _ _ _
        (fun j h1 h2 => ⟨hok j h1 h2, hconn j (by omega)⟩)] at hinit
      simp only [Option.map_some', Option.some.injEq] at hinit
      subst hinit
      refine ⟨hpos, List.range' 0 connSize.toNat, ?_, ?_, ?_, ?_⟩
      · simp [SqlConnPool.ctor]
      · simpa using List.nodup_range' 0 connSize.toNat
      · simp
      · simp
  · rw [if_neg hpos] at hinit
    exact absurd hinit (by simp)

/-- The connection objects that `Init` queues are the established ones, each once. -/
theorem SqlConnPool.initLoop_objects (env : MysqlEnv) : ∀ (n i : Nat) (q q1 : List Handle),
    SqlConnPool.initLoop env n i q = some q1 →
    q1.filterMap id = q.filterMap id ++ (List.range' i n).filter (fun j => env.connectOk j) := by
  intro n
  induction n with
  | zero =>
    intro i q q1 h
    simp only [SqlConnPool.initLoop, Option.some.injEq] at h
    subst h
    simp
  | succ n ih =>
    intro i q q1 h
    rw [SqlConnPool.initLoop] at h
    by_cases hi : env.initOk i = true
    · rw [if_pos hi] at h
      rw [ih _ _ _ h, List.range'_succ]
      by_cases hc : env.connectOk i = true
      · simp [hc, List.filterMap_append]
      · simp [hc, List.filterMap_append]
    · rw [if_neg hi] at h
      exact absurd h (by simp)

/-- After `Init` the pool is within its capacity and no caller holds a handle. -/
theorem SqlConnPool.Init_bounded (env : MysqlEnv) (connSize : Int) (p : SqlConnPool)
    (hinit : SqlConnPool.Init SqlConnPool.ctor env connSize = some p) :
    0 < connSize ∧ PoolSt.Bounded connSize.toNat { pool := p, held := [] } := by
  unfold SqlConnPool.Init at hinit
  by_cases hpos : 0 < connSize
  · rw [if_pos hpos] at hinit
    cases hl : SqlConnPool.initLoop env connSize.toNat 0 SqlConnPool.ctor.connQue_ with
    | none => rw [hl] at hinit; exact absurd hinit (by simp)
    | some q =>
      rw [hl] at hinit
      simp only [Option.map_some', Option.some.injEq] at hinit
      subst hinit
      have hobj := SqlConnPool.initLoop_objects env _ _ _ _ hl
      have hlen := SqlConnPool.initLoop_length env _ _ _ _ hl
      simp only [SqlConnPool.ctor, List.filterMap_nil, List.nil_append, List.length_nil,
        Nat.zero_add] at hobj hlen
      refine ⟨hpos, ?_, ?_, ?_⟩
      · show (q.filterMap id ++ []).Nodup
        rw [List.append_nil, hobj]
        exact (List.nodup_range' 0 connSize.toNat).filter _
      · show ([] : List Nat).length + q.length ≤ connSize.toNat
        simp [hlen]
      · show connSize.toNat = q.length
        exact hlen.symm
  · rw [if_neg hpos] at hinit
    exact absurd hinit (by simp)

namespace PoolOp

/-- A call of `GetConn` returns on every pool within its capacity and keeps it so. -/
theorem apply_getConn_bounded (C : Nat) (s : PoolSt) (h : s.Bounded C) :
    ∃ s1, apply s getConn = .done s1 ∧ s1.Bounded C := by
  obtain ⟨hnd, hlen, hsem⟩ := h
  cases hq : s.pool.connQue_ with
  | nil =>
    refine ⟨{ pool := s.pool, held := s.held }, ?_, ⟨hnd, hlen, hsem⟩⟩
    simp [apply, SqlConnPool.GetConn, hq]
  | cons x rest =>
    rw [hq] at hnd hlen hsem
    have hz : s.pool.semId_ ≠ 0 := by simp [hsem]
    simp only [List.length_cons] at hlen hsem
    cases x with
    | none =>
      refine ⟨{ pool := { s.pool with semId_ := s.pool.semId_ - 1, connQue_ := rest },
                held := s.held }, ?_, ?_, ?_, ?_⟩
      · simp [apply, SqlConnPool.GetConn, hq, hz]
      · simpa using hnd
      · show s.held.length + rest.length ≤ C
        omega
      · show s.pool.semId_ - 1 = rest.length
        omega
    | some y =>
      refine ⟨{ pool := { s.pool with semId_ := s.pool.semId_ - 1, connQue_ := rest },
                held := s.held ++ [y] }, ?_, ?_, ?_, ?_⟩
      · simp [apply, SqlConnPool.GetConn, hq, hz]
      · show (rest.filterMap id ++ (s.held ++ [y])).Nodup
        have hnd1 : (y :: (rest.filterMap id ++ s.held)).Nodup := by simpa using hnd
        have hp : (rest.filterMap id ++ (s.held ++ [y])).Perm
            (y :: (rest.filterMap id ++ s.held)) := by
          rw [← List.append_assoc]
          exact List.perm_append_singleton y _
        exact hp.nodup_iff.mpr hnd1
      · show (s.held ++ [y]).length + rest.length ≤ C
        simp only [List.length_append, List.length_singleton]
        omega
      · show s.pool.semId_ - 1 = rest.length
        omega

/-- A call of `FreeConn` of a held handle returns on every pool within its
capacity and keeps it so. -/
theorem apply_freeConn_bounded (C : Nat) (s : PoolSt) (x : Nat) (h : s.Bounded C)
    (hx : x ∈ s.held) :
    ∃ s1, apply s (freeConn (some x)) = .done s1 ∧ s1.Bounded C := by
  obtain ⟨hnd, hlen, hsem⟩ := h
  refine ⟨{ pool := { s.pool with connQue_ := s.pool.connQue_ ++ [some x],
                                  semId_ := s.pool.semId_ + 1 },
            held := s.held.erase x }, ?_, ?_, ?_, ?_⟩
  · simp [apply, SqlConnPool.FreeConn]
  · show ((s.pool.connQue_ ++ [some x]).filterMap id ++ s.held.erase x).Nodup
    have hp : ((s.pool.connQue_ ++ [some x]).filterMap id ++ s.held.erase x).Perm
        (s.pool.connQue_.filterMap id ++ s.held) := by
      simp only [List.filterMap_append, List.filterMap_cons, List.filterMap_nil, id,
        List.append_assoc, List.singleton_append]
      exact List.Perm.append_left _ (List.perm_cons_erase hx).symm
    exact hp.nodup_iff.mpr hnd
  · show (s.held.erase x).length + (s.pool.connQue_ ++ [some x]).length ≤ C
    have := List.length_erase_of_mem hx
    have hpos : 0 < s.held.length := List.length_pos_of_mem hx
    simp only [List.length_append, List.length_singleton, this]
    omega
  · show s.pool.semId_ + 1 = (s.pool.connQue_ ++ [some x]).length
    simp [hsem]

/-- A sequence of calls that respects the obligation of `FreeConn` runs to its
end on every pool within its capacity and keeps it so. -/
theorem run_bounded (C : Nat) : ∀ (ops : List PoolOp) (s : PoolSt),
    s.Bounded C → freesOk s ops = true →
    ∃ s1, run s ops = .done s1 ∧ s1.Bounded C := by
  intro ops
  induction ops with
  | nil => intro s h _; exact ⟨s, rfl, h⟩
  | cons op ops ih =>
    intro s h hok
    simp only [freesOk, Bool.and_eq_true] at hok
    obtain ⟨hpre, hrest⟩ := hok
    have hstep : ∃ s1, apply s op = .done s1 ∧ s1.Bounded C := by
      cases op with
      | getConn => exact apply_getConn_bounded C s h
      | freeConn sql =>
        cases sql with
        | none => simp at hpre
        | some x => exact apply_freeConn_bounded C s x h (by simpa using hpre)
    obtain ⟨s1, hs1, hc1⟩ := hstep
    rw [hs1] at hrest
    obtain ⟨s2, hrun, hc2⟩ := ih s1 hc1 hrest
    exact ⟨s2, by simp [run, hs1, hrun], hc2⟩

end PoolOp

/-- C6, the claim as stated, fails on a database that refuses connections:
`Init(..., 2)` pushes two `nullptr`, the first `GetConn` pops one and returns
it, which is the no-resource signal.  No handle is held and one entry is
queued: 0 + 1 is not 2. -/
theorem C6_refused_connections_counterexample :
    SqlConnPool.Init SqlConnPool.ctor downEnv 2 = some ⟨2, 0, 0, [none, none], 2⟩ ∧
    PoolOp.freesOk ⟨⟨2, 0, 0, [none, none], 2⟩, []⟩ [.getConn] = true ∧
    SqlConnPool.GetConn ⟨2, 0, 0, [none, none], 2⟩
      = .done (none, ⟨2, 0, 0, [none], 1⟩, [.semWait, .lock, .unlock]) ∧
    ∃ s, PoolOp.run ⟨⟨2, 0, 0, [none, none], 2⟩, []⟩ [.getConn] = .done s ∧
      (s.held.length : Int) + s.pool.connQue_.length ≠ 2 :=
  ⟨by decide, by decide, by decide, ⟨⟨2, 0, 0, [none], 1⟩, []⟩, by decide, by decide⟩

/-- C6, amended: when `Init(..., C)` has returned, then after every call of a
sequence of `GetConn` and `FreeConn` calls, each `FreeConn` made with a
handle held at that moment: the calls made so far have returned, at most `C`
handles are held, no handle is held twice, no held handle is in the queue,
no connection object is queued twice, and the handles held plus the length
of `connQue_` are at most `C`; they are `C` when every one of the `C`
connections was established in `Init`. -/
theorem C6_handles_conserved (env : MysqlEnv) (connSize : Int) (p : SqlConnPool)
    (ops : List PoolOp) (k : Nat)
    (hinit : SqlConnPool.Init SqlConnPool.ctor env connSize = some p)
    (hok : PoolOp.freesOk { pool := p, held := [] } ops = true) :
    0 < connSize ∧
    ∃ s, PoolOp.run { pool := p, held := [] } (ops.take k) = .done s ∧
      (s.held.length : Int) ≤ connSize ∧
      s.held.Nodup ∧ (∀ h ∈ s.held, some h ∉ s.pool.connQue_) ∧
      (s.pool.connQue_.filterMap id).Nodup ∧
      (s.held.length : Int) + s.pool.connQue_.length ≤ connSize ∧
      ((∀ i, i < connSize.toNat → env.connectOk i = true) →
        (s.held.length : Int) + s.pool.connQue_.length = connSize) := by
  obtain ⟨hpos, hb⟩ := SqlConnPool.Init_bounded env connSize p hinit
  obtain ⟨s, hrun, hnd, hlen, _⟩ :=
    PoolOp.run_bounded connSize.toNat (ops.take k) _ hb (PoolOp.freesOk_take ops _ k hok)
  have hC : ((connSize.toNat : Nat) : Int) = connSize := Int.toNat_of_nonneg (le_of_lt hpos)
  rw [List.nodup_append] at hnd
  obtain ⟨hq, hh, hdisj⟩ := hnd
  refine ⟨hpos, s, hrun, by omega, hh, ?_, hq, by omega, ?_⟩
  · intro h hmem hin
    have : h ∈ s.pool.connQue_.filterMap id := by
      simp only [List.mem_filterMap, id]
      exact ⟨some h, hin, rfl⟩
    exact hdisj this hmem
  · intro hconn
    obtain ⟨_, hc⟩ := SqlConnPool.Init_conserved env connSize p hinit hconn
    obtain ⟨s1, hrun1, l, hql, _, hlen1, _⟩ :=
      PoolOp.run_conserved connSize.toNat (ops.take k) _ hc (PoolOp.freesOk_take ops _ k hok)
    rw [hrun] at hrun1
    simp only [Outcome.done.injEq] at hrun1
    subst hrun1
    rw [hql, List.length_map]
    omega

/-- C6 amended, on a pool of 3 where the connection of object 1 was refused:
`GetConn` returns object 0, then the `nullptr`, then object 2; object 0 is
released and acquired again. -/
theorem C6_handles_conserved_witness :
    SqlConnPool.Init SqlConnPool.ctor flakyEnv 3 = some ⟨3, 0, 0, [some 0, none, some 2], 3⟩ ∧
    PoolOp.freesOk { pool := ⟨3, 0, 0, [some 0, none, some 2], 3⟩, held := [] }
      [.getConn, .getConn, .getConn, .freeConn (some 0), .getConn] = true ∧
    (0 : Int) < 3 ∧
    ∃ s, PoolOp.run { pool := ⟨3, 0, 0, [some 0, none, some 2], 3⟩, held := [] }
        (([.getConn, .getConn, .getConn, .freeConn (some 0), .getConn] : List PoolOp).take 5)
          = .done s ∧
      (s.held.length : Int) ≤ 3 ∧
      s.held.Nodup ∧ (∀ h ∈ s.held, some h ∉ s.pool.connQue_) ∧
      (s.pool.connQue_.filterMap id).Nodup ∧
      (s.held.length : Int) + s.pool.connQue_.length ≤ 3 ∧
      ((∀ i, i < (3 : Int).toNat → flakyEnv.connectOk i = true) →
        (s.held.length : Int) + s.pool.connQue_.length = 3) :=
  ⟨by decide, by decide,
    C6_handles_conserved flakyEnv 3 ⟨3, 0, 0, [some 0, none, some 2], 3⟩
      [.getConn, .getConn, .getConn, .freeConn (some 0), .getConn] 5
      (by decide) (by decide)⟩

/-- The pools of C6 evaluated: with every connection established the held
handles and the queue are 2 together after each call; with object 1 refused
the sequence of the witness ends with two handles held and an empty queue. -/
theorem SqlConnPool_sequences_evaluated :
    PoolOp.run ⟨⟨2, 0, 0, [some 0, some 1], 2⟩, []⟩
      [.getConn, .getConn, .getConn, .freeConn (some 0), .getConn]
      = .done ⟨⟨2, 0, 0, [], 0⟩, [1, 0]⟩ ∧
    PoolOp.run ⟨⟨3, 0, 0, [some 0, none, some 2], 3⟩, []⟩
      [.getConn, .getConn, .getConn, .freeConn (some 0), .getConn]
      = .done ⟨⟨3, 0, 0, [], 0⟩, [2, 0]⟩ := by
  decide

/-- A call of `GetConn` on a non-empty queue is `sem_wait`, then `front` and
`pop` under the mutex. -/
theorem SqlConnPool.GetConn_two_steps (p : SqlConnPool) (sql : Handle) (rest : List Handle)
    (hq : p.connQue_ = sql :: rest) :
    p.GetConn =
      match p.semWaitStep with
      | .done p1 =>
        match p1.popStep with
        | some (x, p2) => .done (x, p2, [.semWait, .lock, .unlock])
        | none => .abort
      | .abort => .abort
      | .blocks => .blocks := by
  by_cases hz : p.semId_ = 0
  · simp [SqlConnPool.GetConn, SqlConnPool.semWaitStep, hq, hz]
  · simp [SqlConnPool.GetConn, SqlConnPool.semWaitStep, SqlConnPool.popStep, hq, hz]

/-- C7, the claim as stated, fails on a non-empty queue whose semaphore is 0.
On the pool of 2 connections a first caller has taken object 0, and a second
caller has passed `sem_wait` and not yet taken the mutex: the queue holds
object 1 and the semaphore is 0.  A call of `GetConn` in this state sees the
queue non-empty and is suspended in `sem_wait`: it does not return the head. -/
theorem C7_semaphore_zero_counterexample :
    SqlConnPool.Init SqlConnPool.ctor healthyEnv 2 = some ⟨2, 0, 0, [some 0, some 1], 2⟩ ∧
    (⟨2, 0, 0, [some 0, some 1], 2⟩ : SqlConnPool).GetConn
      = .done (some 0, ⟨2, 0, 0, [some 1], 1⟩, [.semWait, .lock, .unlock]) ∧
    (⟨2, 0, 0, [some 1], 1⟩ : SqlConnPool).semWaitStep = .done ⟨2, 0, 0, [some 1], 0⟩ ∧
    (⟨2, 0, 0, [some 1], 0⟩ : SqlConnPool).connQue_ ≠ [] ∧
    (⟨2, 0, 0, [some 1], 0⟩ : SqlConnPool).GetConn = .blocks := by
  decide

/-- C7, amended: `GetConn` on an empty `connQue_` returns `nullptr` after the
warning alone, without `sem_wait`, whatever the semaphore's value, and leaves
the pool as it was.  On a non-empty queue with a positive semaphore it
returns the handle at the head and removes it, after `sem_wait` has taken one
from the semaphore; on a non-empty queue with the semaphore at 0 it is
suspended in `sem_wait`.  `FreeConn(h)` puts `h` at the tail and posts the
semaphore. -/
theorem C7_fast_reject_and_fifo (p : SqlConnPool) :
    (p.connQue_ = [] → p.GetConn = .done (none, p, [.logWarn])) ∧
    (∀ sql rest, p.connQue_ = sql :: rest → 0 < p.semId_ →
      p.GetConn = .done (sql, { p with semId_ := p.semId_ - 1, connQue_ := rest },
        [.semWait, .lock, .unlock])) ∧
    (∀ sql rest, p.connQue_ = sql :: rest → p.semId_ = 0 → p.GetConn = .blocks) ∧
    (∀ h : Nat, p.FreeConn (some h) =
      .done ({ p with connQue_ := p.connQue_ ++ [some h], semId_ := p.semId_ + 1 },
        [.lock, .semPost, .unlock])) := by
  refine ⟨?_, ?_, ?_, fun h => rfl⟩
  · intro hq
    simp [SqlConnPool.GetConn, hq]
  · intro sql rest hq hpos
    have hz : p.semId_ ≠ 0 := by omega
    simp [SqlConnPool.GetConn, hq, hz]
  · intro sql rest hq hz
    simp [SqlConnPool.GetConn, hq, hz]

/-- The pool of 2 established connections after one `GetConn` is reachable. -/
theorem SqlConnPool.reachable_example :
    SqlConnPool.Reachable ⟨2, 0, 0, [some 1], 1⟩ :=
  .getConn ⟨2, 0, 0, [some 0, some 1], 2⟩ _ (some 0) [.semWait, .lock, .unlock]
    (.init healthyEnv 2 _ (by decide)) (by decide)

/-- C7 amended, on a queue of two handles with the semaphore at 1 (a second
caller stands between `sem_wait` and the mutex): `GetConn` returns the head,
object 0; and on the empty queue with the semaphore at 0 it returns `nullptr`. -/
theorem C7_fast_reject_and_fifo_witness :
    ((⟨2, 0, 0, [some 0, some 1], 1⟩ : SqlConnPool).connQue_ = [some 0, some 1]) ∧
    (0 < (⟨2, 0, 0, [some 0, some 1], 1⟩ : SqlConnPool).semId_) ∧
    (⟨2, 0, 0, [some 0, some 1], 1⟩ : SqlConnPool).GetConn
      = .done (some 0, ⟨2, 0, 0, [some 1], 0⟩, [.semWait, .lock, .unlock]) ∧
    (⟨2, 0, 0, [], 0⟩ : SqlConnPool).GetConn = .done (none, ⟨2, 0, 0, [], 0⟩, [.logWarn]) :=
  ⟨rfl, by decide,
    (C7_fast_reject_and_fifo ⟨2, 0, 0, [some 0, some 1], 1⟩).2.1 (some 0) [some 1] rfl
      (by decide),
    (C7_fast_reject_and_fifo ⟨2, 0, 0, [], 0⟩).1 rfl⟩

/-- The function `GetConn` on an empty queue, evaluated with the semaphore at 0 and at 3:
it returns at once in both; and `GetConn` on a queue whose semaphore is 0
(a state that the program does not reach) is suspended. -/
theorem GetConn_evaluated :
    (⟨2, 0, 0, [], 0⟩ : SqlConnPool).GetConn = .done (none, ⟨2, 0, 0, [], 0⟩, [.logWarn]) ∧
    (⟨2, 0, 0, [], 3⟩ : SqlConnPool).GetConn = .done (none, ⟨2, 0, 0, [], 3⟩, [.logWarn]) ∧
    (⟨2, 0, 0, [some 1], 0⟩ : SqlConnPool).GetConn = .blocks := by
  decide

/-! ## ThreadPool: proofs -/

theorem ThreadPool_evaluated :
    (ThreadPool.ctor 2).bind (fun s => s.run
      [.addTask 7, .worker 0, .addTask 8, .worker 1, .destroy, .worker 1, .worker 0,
       .worker 0, .worker 1])
      = some ⟨[], true, [.exited, .exited], [7, 8], [7, 8], [8, 7]⟩ := by
  decide

namespace ThreadPool

theorem inFlight_append (xs ys : List Worker) :
    inFlight (xs ++ ys) = inFlight xs ++ inFlight ys := by
  induction xs with
  | nil => rfl
  | cons x xs ih => cases x <;> simp [inFlight, ih]

theorem set_split (ws : List Worker) (i : Nat) (w w1 : Worker) (h : ws[i]? = some w) :
    ws = ws.take i ++ w :: ws.drop (i + 1) ∧
    ws.set i w1 = ws.take i ++ w1 :: ws.drop (i + 1) := by
  obtain ⟨hi, hw⟩ := List.getElem?_eq_some_iff.mp h
  constructor
  · rw [← hw, List.getElem_cons_drop, List.take_append_drop]
  · rw [List.set_eq_take_append_cons_drop, if_pos hi]

theorem mem_set_self (ws : List Worker) (i : Nat) (w w1 : Worker) (h : ws[i]? = some w) :
    w1 ∈ ws.set i w1 := by
  rw [(set_split ws i w w1 h).2]
  simp

theorem set_ne_nil (ws : List Worker) (i : Nat) (w1 : Worker) (h : ws ≠ []) :
    ws.set i w1 ≠ [] := by
  intro hs
  have := congrArg List.length hs
  simp at this
  exact h this

/-- Replacing a worker that runs nothing by one that runs nothing. -/
theorem inFlight_set_same (ws : List Worker) (i : Nat) (w w1 : Worker) (h : ws[i]? = some w)
    (hw : inFlight [w] = []) (hw1 : inFlight [w1] = []) :
    inFlight (ws.set i w1) = inFlight ws := by
  obtain ⟨h1, h2⟩ := set_split ws i w w1 h
  rw [h2]
  conv_rhs => rw [h1]
  rw [inFlight_append, inFlight_append,
    show w1 :: ws.drop (i + 1) = [w1] ++ ws.drop (i + 1) from rfl,
    show w :: ws.drop (i + 1) = [w] ++ ws.drop (i + 1) from rfl,
    inFlight_append, inFlight_append, hw, hw1]

/-- A worker that ran nothing starts to run `t`. -/
theorem inFlight_set_start (ws : List Worker) (i : Nat) (w : Worker) (t : TaskId)
    (h : ws[i]? = some w) (hw : inFlight [w] = []) :
    (inFlight (ws.set i (.running t))).Perm (inFlight ws ++ [t]) := by
  obtain ⟨h1, h2⟩ := set_split ws i w (.running t) h
  rw [h2]
  conv_rhs => rw [h1]
  rw [inFlight_append, inFlight_append,
    show w :: ws.drop (i + 1) = [w] ++ ws.drop (i + 1) from rfl, inFlight_append, hw]
  simp only [inFlight, List.nil_append, List.append_assoc]
  refine List.Perm.append_left _ ?_
  exact (List.perm_append_singleton t _).symm

/-- A worker that ran `t` stops running it. -/
theorem inFlight_set_finish (ws : List Worker) (i : Nat) (w1 : Worker) (t : TaskId)
    (h : ws[i]? = some (.running t)) (hw1 : inFlight [w1] = []) :
    (t :: inFlight (ws.set i w1)).Perm (inFlight ws) := by
  obtain ⟨h1, h2⟩ := set_split ws i (.running t) w1 h
  rw [h2]
  conv_rhs => rw [h1]
  rw [inFlight_append, inFlight_append,
    show w1 :: ws.drop (i + 1) = [w1] ++ ws.drop (i + 1) from rfl, inFlight_append, hw1]
  simp only [inFlight, List.nil_append]
  exact List.perm_middle.symm

end ThreadPool

namespace ThreadPool

theorem threads_ctor_Inv (threadCount : Nat) (s : ThreadPool) (h : ctor threadCount = some s) :
    s.Inv := by
  unfold ctor at h
  by_cases hn : 0 < threadCount
  · rw [if_pos hn] at h
    simp only [Option.some.injEq] at h
    subst h
    refine ⟨rfl, ?_, ?_, ?_, ?_⟩
    · have : ∀ n, inFlight (List.replicate n Worker.ready) = [] := by
        intro n
        induction n with
        | zero => rfl
        | succ n ih => simp [List.replicate_succ, inFlight, ih]
      simp [this]
    · intro hnil
      have := congrArg List.length hnil
      simp at this
      omega
    · intro hmem
      have := List.eq_of_mem_replicate hmem
      exact absurd this (by decide)
    · intro _; rfl
  · rw [if_neg hn] at h
    exact absurd h (by simp)

theorem AddTask_Inv (s : ThreadPool) (t : TaskId) (h : s.Inv) (hc : ¬ s.isClosed = true) :
    (s.AddTask t).Inv := by
  obtain ⟨h1, h2, h3, h4, h5⟩ := h
  refine ⟨?_, h2, h3, h4, ?_⟩
  · show s.dequeued ++ (s.tasks ++ [t]) = s.submitted ++ [t]
    rw [← List.append_assoc, h1]
  · intro hall
    have hmem : Worker.exited ∈ s.workers := by
      cases hw : s.workers with
      | nil => exact absurd hw h3
      | cons w ws =>
        have := hall w (by show w ∈ s.workers; simp [hw])
        simp [this]
    exact absurd (h4 hmem) hc

theorem destroy_Inv (s : ThreadPool) (h : s.Inv) : s.destroy.Inv := by
  obtain ⟨h1, h2, h3, _, h5⟩ := h
  exact ⟨h1, h2, h3, fun _ => rfl, h5⟩

/-- A worker that is replaced by one that has not exited leaves the two
facts on exited workers as they were. -/
theorem set_live_keeps (s : ThreadPool) (i : Nat) (w w1 : Worker) (tasks : List TaskId)
    (hw : s.workers[i]? = some w) (hne : w1 ≠ Worker.exited)
    (h4 : Worker.exited ∈ s.workers → s.isClosed = true) :
    (Worker.exited ∈ s.workers.set i w1 → s.isClosed = true) ∧
    ((∀ x ∈ s.workers.set i w1, x = Worker.exited) → tasks = []) := by
  constructor
  · intro hmem
    rcases List.mem_or_eq_of_mem_set hmem with hm | hm
    · exact h4 hm
    · exact absurd hm.symm hne
  · intro hall
    exact absurd (hall _ (mem_set_self _ _ _ w1 hw)) hne

theorem workerStep_Inv (s s1 : ThreadPool) (i : Nat) (h : s.Inv)
    (hs : s.workerStep i = some s1) : s1.Inv := by
  obtain ⟨h1, h2, h3, h4, h5⟩ := h
  unfold workerStep at hs
  split at hs
  · rename_i hw
    split at hs
    · rename_i t rest ht
      simp only [Option.some.injEq] at hs
      subst hs
      obtain ⟨k4, k5⟩ := set_live_keeps s i _ (Worker.running t) rest hw (by simp) h4
      refine ⟨?_, ?_, set_ne_nil _ _ _ h3, k4, k5⟩
      · show s.dequeued ++ [t] ++ rest = s.submitted
        rw [← h1, ht]; simp
      · show (s.ran ++ inFlight (s.workers.set i (Worker.running t))).Perm (s.dequeued ++ [t])
        have hp := inFlight_set_start _ _ _ t hw rfl
        have hp2 : (s.ran ++ inFlight (s.workers.set i (Worker.running t))).Perm
            (s.ran ++ (inFlight s.workers ++ [t])) := List.Perm.append_left _ hp
        refine hp2.trans ?_
        rw [← List.append_assoc]
        exact List.Perm.append_right _ h2
    · rename_i ht
      split at hs
      · rename_i hc
        simp only [Option.some.injEq] at hs
        subst hs
        refine ⟨h1, ?_, set_ne_nil _ _ _ h3, fun _ => hc, fun _ => ht⟩
        show (s.ran ++ inFlight (s.workers.set i Worker.exited)).Perm s.dequeued
        rw [inFlight_set_same _ _ Worker.ready Worker.exited hw rfl rfl]
        exact h2
      · simp only [Option.some.injEq] at hs
        subst hs
        obtain ⟨k4, k5⟩ := set_live_keeps s i _ Worker.waiting s.tasks hw (by decide) h4
        refine ⟨h1, ?_, set_ne_nil _ _ _ h3, k4, k5⟩
        show (s.ran ++ inFlight (s.workers.set i Worker.waiting)).Perm s.dequeued
        rw [inFlight_set_same _ _ Worker.ready Worker.waiting hw rfl rfl]
        exact h2
  · rename_i t hw
    simp only [Option.some.injEq] at hs
    subst hs
    obtain ⟨k4, k5⟩ := set_live_keeps s i _ Worker.ready s.tasks hw (by decide) h4
    refine ⟨h1, ?_, set_ne_nil _ _ _ h3, k4, k5⟩
    show (s.ran ++ [t] ++ inFlight (s.workers.set i Worker.ready)).Perm s.dequeued
    have hp := inFlight_set_finish _ _ Worker.ready t hw rfl
    have hp2 : (s.ran ++ [t] ++ inFlight (s.workers.set i Worker.ready)).Perm
        (s.ran ++ inFlight s.workers) := by
      rw [List.append_assoc]
      exact List.Perm.append_left _ hp
    exact hp2.trans h2
  · rename_i hw
    simp only [Option.some.injEq] at hs
    subst hs
    obtain ⟨k4, k5⟩ := set_live_keeps s i _ Worker.ready s.tasks hw (by decide) h4
    refine ⟨h1, ?_, set_ne_nil _ _ _ h3, k4, k5⟩
    show (s.ran ++ inFlight (s.workers.set i Worker.ready)).Perm s.dequeued
    rw [inFlight_set_same _ _ Worker.waiting Worker.ready hw rfl rfl]
    exact h2
  · exact absurd hs (by simp)
  · exact absurd hs (by simp)

theorem step_Inv (s s1 : ThreadPool) (a : PoolAction) (h : s.Inv) (hs : s.step a = some s1) :
    s1.Inv := by
  cases a with
  | addTask t =>
    simp only [step] at hs
    split at hs
    · exact absurd hs (by simp)
    · rename_i hc
      simp only [Option.some.injEq] at hs
      subst hs
      exact AddTask_Inv s t h hc
  | worker i => exact workerStep_Inv s s1 i h hs
  | destroy =>
    simp only [step, Option.some.injEq] at hs
    subst hs
    exact destroy_Inv s h

theorem run_Inv : ∀ (acts : List PoolAction) (s s1 : ThreadPool),
    s.Inv → s.run acts = some s1 → s1.Inv := by
  intro acts
  induction acts with
  | nil =>
    intro s s1 h hr
    simp only [run, Option.some.injEq] at hr
    subst hr
    exact h
  | cons a acts ih =>
    intro s s1 h hr
    simp only [run] at hr
    cases hs : s.step a with
    | none => simp [hs] at hr
    | some s2 =>
      simp only [hs, Option.some_bind] at hr
      exact ih s2 s1 (step_Inv s s2 a h hs) hr

/-- A worker leaves its loop only on an empty queue with `isClosed` set. -/
theorem workerStep_exit (s s1 : ThreadPool) (i : Nat) (hs : s.workerStep i = some s1)
    (he : s1.workers[i]? = some Worker.exited) : s.tasks = [] ∧ s.isClosed = true := by
  have hset : ∀ (w w1 : Worker), s.workers[i]? = some w → w1 ≠ Worker.exited →
      (s.workers.set i w1)[i]? ≠ some Worker.exited := by
    intro w w1 hw hne
    obtain ⟨hi, _⟩ := List.getElem?_eq_some_iff.mp hw
    simp [List.getElem?_set, hi, hne]
  unfold workerStep at hs
  split at hs
  · rename_i hw
    split at hs
    · rename_i t rest ht
      simp only [Option.some.injEq] at hs
      subst hs
      exact absurd he (hset _ _ hw (by simp))
    · rename_i ht
      split at hs
      · rename_i hc
        exact ⟨ht, hc⟩
      · simp only [Option.some.injEq] at hs
        subst hs
        exact absurd he (hset _ _ hw (by decide))
  · rename_i t hw
    simp only [Option.some.injEq] at hs
    subst hs
    exact absurd he (hset _ _ hw (by decide))
  · rename_i hw
    simp only [Option.some.injEq] at hs
    subst hs
    exact absurd he (hset _ _ hw (by decide))
  · exact absurd hs (by simp)
  · exact absurd hs (by simp)

end ThreadPool

/-- C8: for every worker count `>= 1` and every interleaving of `AddTask`
calls, worker steps and the destructor, in the state reached: the tasks
dequeued so far followed by the queue are the tasks submitted, in order, so
the dequeued ones are a prefix of the submitted ones; a worker step that
ends in `exited` starts from an empty queue with `isClosed` set; and once
every worker has exited the queue is empty and the tasks run are the
`K` submitted tasks, each as often as it was submitted. -/
theorem C8_fifo_dequeue_and_drain (threadCount : Nat) (acts : List PoolAction)
    (s : ThreadPool) (hn : 1 ≤ threadCount)
    (hrun : (ThreadPool.ctor threadCount).bind (fun s0 => s0.run acts) = some s) :
    (ThreadPool.ctor threadCount).isSome = true ∧
    s.dequeued <+: s.submitted ∧
    s.dequeued ++ s.tasks = s.submitted ∧
    (∀ i s1, s.step (.worker i) = some s1 → s1.workers[i]? = some Worker.exited →
      s.tasks = [] ∧ s.isClosed = true) ∧
    ((∀ w ∈ s.workers, w = Worker.exited) →
      s.tasks = [] ∧ s.ran.Perm s.submitted ∧ s.ran.length = s.submitted.length ∧
      s.dequeued = s.submitted) := by
  have hsome : (ThreadPool.ctor threadCount).isSome = true := by
    have hpos : 0 < threadCount := hn
    simp [ThreadPool.ctor, hpos]
  refine ⟨hsome, ?_⟩
  cases h0 : ThreadPool.ctor threadCount with
  | none => simp [h0] at hrun
  | some s0 =>
    simp only [h0, Option.some_bind] at hrun
    obtain ⟨h1, h2, h3, h4, h5⟩ :=
      ThreadPool.run_Inv acts s0 s (ThreadPool.threads_ctor_Inv threadCount s0 h0) hrun
    refine ⟨⟨s.tasks, h1⟩, h1, fun i s1 hs he => ThreadPool.workerStep_exit s s1 i hs he, ?_⟩
    intro hall
    have ht := h5 hall
    have hnone : ThreadPool.inFlight s.workers = [] := by
      have : ∀ ws : List Worker, (∀ w ∈ ws, w = Worker.exited) → ThreadPool.inFlight ws = [] := by
        intro ws
        induction ws with
        | nil => intro _; rfl
        | cons w ws ih =>
          intro hw
          have hw0 := hw w (by simp)
          subst hw0
          simp only [ThreadPool.inFlight]
          exact ih (fun w1 hw1 => hw w1 (by simp [hw1]))
      exact this _ hall
    rw [hnone, List.append_nil] at h2
    rw [ht, List.append_nil] at h1
    rw [h1] at h2
    exact ⟨ht, h2, h2.length_eq, h1⟩

/-- C8 on two workers and two tasks: both tasks are dequeued in submission
order, finish in the other order, and both workers leave after the destructor. -/
theorem C8_fifo_dequeue_and_drain_witness :
    (1 ≤ 2) ∧
    (ThreadPool.ctor 2).bind (fun s0 => s0.run
      [.addTask 7, .worker 0, .addTask 8, .worker 1, .destroy, .worker 1, .worker 0,
       .worker 0, .worker 1])
      = some ⟨[], true, [.exited, .exited], [7, 8], [7, 8], [8, 7]⟩ ∧
    ([7, 8] : List TaskId) <+: [7, 8] ∧
    ([8, 7] : List TaskId).Perm [7, 8] :=
  have h := C8_fifo_dequeue_and_drain 2
    [.addTask 7, .worker 0, .addTask 8, .worker 1, .destroy, .worker 1, .worker 0,
     .worker 0, .worker 1]
    ⟨[], true, [.exited, .exited], [7, 8], [7, 8], [8, 7]⟩ (by decide) (by decide)
  ⟨by decide, by decide, h.2.1, (h.2.2.2.2 (by decide)).2.1⟩

/-! ## WebServer: proofs -/

theorem DealListen_evaluated :
    mainServer.DealListen_ [⟨7, 100, 65536, 12, 0⟩] =
      some [.accept 3, .send 7 "Server busy!", .close 7] ∧
    mainServer.DealListen_ [⟨7, 100, 0, 12, 2⟩, ⟨8, 101, 65536, -1, 0⟩, ⟨9, 102, 0, 0, 0⟩] =
      some [.accept 3, .usersInit 7 100, .timerAdd 7 60000 (.closeConn 7),
        .epollAdd 7 (EPOLLIN ||| mainServer.connEvent_), .fcntlGetFd 7, .fcntlSetFl 7 2050,
        .accept 3, .send 8 "Server busy!", .close 8] := by
  decide

theorem OnWrite_evaluated :
    mainServer.OnWrite_ 7 ⟨-1, some 32, 0, true, false⟩ =
      [.connWrite 7, .connToWriteBytes 7, .connIsKeepAlive 7, .connProcess 7,
       .epollMod 7 (mainServer.connEvent_ ||| EPOLLIN)] ∧
    mainServer.OnWrite_ 7 ⟨-1, some 32, 10, true, false⟩ =
      [.connWrite 7, .connToWriteBytes 7, .epollDel 7, .connClose 7] ∧
    mainServer.OnRead_ 7 ⟨-1, some 104, 0, true, false⟩ =
      [.connRead 7, .epollDel 7, .connClose 7] := by
  decide

theorem handleEvent_evaluated :
    mainServer.handleEvent 7 EPOLLIN true [] =
      some [.timerAdjust 7 60000, .poolAddTask (.onRead 7)] ∧
    mainServer.handleEvent 7 (EPOLLIN ||| EPOLLRDHUP) true [] =
      some [.epollDel 7, .connClose 7] ∧
    mainServer.handleEvent 7 EPOLLOUT true [] =
      some [.timerAdjust 7 60000, .poolAddTask (.onWrite 7)] ∧
    mainServer.handleEvent 3 EPOLLIN false [] = some [.accept 3] := by
  decide

namespace WebServer

/-- The function `AddClient_` returns on a positive descriptor. -/
theorem AddClient_isSome (s : WebServer) (fd : Int) (addr : Nat) (preFlag : Int) (h : 0 < fd) :
    ∃ tr, s.AddClient_ fd addr preFlag = some tr := by
  simp [AddClient_, SetFdNonblock, h]

/-- The function `DealListen_` on connections that it admits one after the other, followed
by one that meets a full server. -/
theorem DealListen_accepts_then_rejects (s : WebServer) (a : Accepted) (rest : List Accepted)
    (hfd : 0 < a.fd) (hfull : s.MAX_FD ≤ a.userCount) :
    ∀ pre : List Accepted, (∀ x ∈ pre, 0 < x.fd ∧ x.userCount < s.MAX_FD) →
      (pre = [] ∨ s.listenEvent_ &&& EPOLLET ≠ 0) →
      s.DealListen_ (pre ++ a :: rest) =
        some (s.acceptedCalls pre ++ [.accept s.listenFd_, .send a.fd "Server busy!", .close a.fd]) := by
  intro pre
  induction pre with
  | nil =>
    intro _ _
    have h1 : ¬ a.fd ≤ 0 := by omega
    simp [DealListen_, acceptedCalls, SendError_, h1, hfull, hfd]
  | cons x pre ih =>
    intro hpre het
    have het1 : s.listenEvent_ &&& EPOLLET ≠ 0 := by
      rcases het with h | h
      · exact absurd h (by simp)
      · exact h
    obtain ⟨hx1, hx2⟩ := hpre x (by simp)
    obtain ⟨tr, htr⟩ := AddClient_isSome s x.fd x.addr x.preFlag hx1
    have h1 : ¬ x.fd ≤ 0 := by omega
    have h2 : ¬ s.MAX_FD ≤ x.userCount := by omega
    have ih1 := ih (fun y hy => hpre y (by simp [hy])) (Or.inr het1)
    simp only [List.cons_append, DealListen_, h1, h2, if_false, htr, Option.some_bind, het1,
      ne_eq, not_false_eq_true, if_true, acceptedCalls, Option.getD_some, List.append_assoc]
    rw [show pre.append (a :: rest) = pre ++ a :: rest from rfl, ih1]
    rfl

end WebServer

/-- C9: in a call of `DealListen_`, when `accept` returns a descriptor
`fd > 0` while `HttpConn::userCount >= MAX_FD` (alone, or after connections
that the same call admitted): "Server busy!" is sent on `fd`, `fd` is
closed and `DealListen_` returns.  From that `accept` on no call reaches
`users_`, the multiplexer or the timer, and the calls made for the
connections admitted before are the ones made without the rejection. -/
theorem C9_full_server_rejects (s : WebServer) (a : Accepted) (pre rest : List Accepted)
    (hfd : 0 < a.fd) (hfull : s.MAX_FD ≤ a.userCount)
    (hpre : ∀ x ∈ pre, 0 < x.fd ∧ x.userCount < s.MAX_FD)
    (het : pre = [] ∨ s.listenEvent_ &&& EPOLLET ≠ 0) :
    s.DealListen_ (pre ++ a :: rest) =
      some (s.acceptedCalls pre ++ [.accept s.listenFd_, .send a.fd "Server busy!", .close a.fd]) ∧
    (∀ c ∈ [Call.accept s.listenFd_, Call.send a.fd "Server busy!", Call.close a.fd],
      c.onUsers = false ∧ c.onEpoller = false ∧ c.onTimer = false) ∧
    (∀ addr, Call.usersInit a.fd addr ∉
      [Call.accept s.listenFd_, Call.send a.fd "Server busy!", Call.close a.fd]) := by
  refine ⟨WebServer.DealListen_accepts_then_rejects s a rest hfd hfull pre hpre het, ?_, ?_⟩
  · intro c hc
    simp only [List.mem_cons, List.mem_singleton, List.not_mem_nil, or_false] at hc
    rcases hc with h | h | h <;> subst h <;> exact ⟨rfl, rfl, rfl⟩
  · intro addr hmem
    simp at hmem

/-- C9 on the server of `main.cpp`: descriptor 7 is admitted, then descriptor
8 arrives with `userCount` at `MAX_FD`. -/
theorem C9_full_server_rejects_witness :
    mainServer.DealListen_ ([⟨7, 100, 0, 12, 2⟩] ++ ⟨8, 101, 65536, -1, 0⟩ :: [⟨9, 102, 0, 0, 0⟩]) =
      some (mainServer.acceptedCalls [⟨7, 100, 0, 12, 2⟩] ++
        [.accept mainServer.listenFd_, .send 8 "Server busy!", .close 8]) ∧
    (∀ c ∈ [Call.accept mainServer.listenFd_, Call.send 8 "Server busy!", Call.close 8],
      c.onUsers = false ∧ c.onEpoller = false ∧ c.onTimer = false) ∧
    (∀ addr, Call.usersInit 8 addr ∉
      [Call.accept mainServer.listenFd_, Call.send 8 "Server busy!", Call.close 8]) :=
  C9_full_server_rejects mainServer ⟨8, 101, 65536, -1, 0⟩ [⟨7, 100, 0, 12, 2⟩] [⟨9, 102, 0, 0, 0⟩]
    (by decide) (by decide) (by decide) (Or.inr (by decide))

/-- C10, the claim as stated, fails for a write task: `write` returns -1
with the error code 32 (`EPIPE`, not `EAGAIN`) while the connection reports
`ToWriteBytes() == 0` and `IsKeepAlive()`.  `OnWrite_` calls `OnProcess`,
which processes the connection and registers interest again; the connection
is not closed. -/
theorem C10_write_error_kept_alive_counterexample :
    ((⟨-1, some 32, 0, true, false⟩ : ConnReplies).ioRet < 0) ∧
    ((⟨-1, some 32, 0, true, false⟩ : ConnReplies).ioErrno.getD 0 ≠ EAGAIN) ∧
    mainServer.OnWrite_ 7 ⟨-1, some 32, 0, true, false⟩ =
      [.connWrite 7, .connToWriteBytes 7, .connIsKeepAlive 7, .connProcess 7,
       .epollMod 7 (mainServer.connEvent_ ||| EPOLLIN)] ∧
    Call.epollDel 7 ∉ mainServer.OnWrite_ 7 ⟨-1, some 32, 0, true, false⟩ ∧
    Call.connClose 7 ∉ mainServer.OnWrite_ 7 ⟨-1, some 32, 0, true, false⟩ ∧
    Call.connProcess 7 ∈ mainServer.OnWrite_ 7 ⟨-1, some 32, 0, true, false⟩ := by
  decide

/-- C10, amended: when `read` returns a negative result and the error code
is not `EAGAIN`, `OnRead_` calls `CloseConn_` (`DelFd`, then `Close`) and
nothing else.  When `write` does, `OnWrite_` calls `CloseConn_` and nothing
else after its queries, unless the connection reports `ToWriteBytes() == 0`
and `IsKeepAlive()`: then `OnWrite_` calls `OnProcess`. -/
theorem C10_fatal_io_closes (s : WebServer) (client : Int) (r : ConnReplies)
    (hneg : r.ioRet < 0) (herr : r.ioErrno.getD 0 ≠ EAGAIN) :
    s.OnRead_ client r = [.connRead client, .epollDel client, .connClose client] ∧
    s.CloseConn_ client = [.epollDel client, .connClose client] ∧
    (r.toWriteBytes ≠ 0 →
      s.OnWrite_ client r =
        [.connWrite client, .connToWriteBytes client, .epollDel client, .connClose client]) ∧
    (r.toWriteBytes = 0 → r.isKeepAlive = false →
      s.OnWrite_ client r =
        [.connWrite client, .connToWriteBytes client, .connIsKeepAlive client,
         .epollDel client, .connClose client]) ∧
    (r.toWriteBytes = 0 → r.isKeepAlive = true →
      s.OnWrite_ client r =
        [.connWrite client, .connToWriteBytes client, .connIsKeepAlive client]
          ++ s.OnProcess client r) := by
  have hle : r.ioRet ≤ 0 := le_of_lt hneg
  refine ⟨?_, rfl, ?_, ?_, ?_⟩
  · simp [WebServer.OnRead_, WebServer.CloseConn_, hle, herr]
  · intro hw
    simp [WebServer.OnWrite_, WebServer.CloseConn_, hw, hneg, herr]
  · intro hw hk
    simp [WebServer.OnWrite_, WebServer.CloseConn_, hw, hk]
  · intro hw hk
    simp [WebServer.OnWrite_, hw, hk]

/-- C10 amended, on the server of `main.cpp`: a read and a write that fail
with `ECONNRESET` (104), ten bytes left to write. -/
theorem C10_fatal_io_closes_witness :
    ((⟨-1, some 104, 10, true, false⟩ : ConnReplies).ioRet < 0) ∧
    ((⟨-1, some 104, 10, true, false⟩ : ConnReplies).ioErrno.getD 0 ≠ EAGAIN) ∧
    mainServer.OnRead_ 7 ⟨-1, some 104, 10, true, false⟩
      = [.connRead 7, .epollDel 7, .connClose 7] ∧
    mainServer.OnWrite_ 7 ⟨-1, some 104, 10, true, false⟩
      = [.connWrite 7, .connToWriteBytes 7, .epollDel 7, .connClose 7] :=
  have h := C10_fatal_io_closes mainServer 7 ⟨-1, some 104, 10, true, false⟩
    (by decide) (by decide)
  ⟨by decide, by decide, h.1, h.2.2.1 (by decide)⟩

/-! ## Closing a connection: proofs -/

theorem timerEntries_append (xs ys : List Call) :
    timerEntries (xs ++ ys) = timerEntries xs ++ timerEntries ys := by
  induction xs with
  | nil => rfl
  | cons x xs ih => cases x <;> simp [timerEntries, ih]

theorem close_paths_evaluated :
    mainServer.AddClient_ 7 100 2 =
      some [.usersInit 7 100, .timerAdd 7 60000 (.closeConn 7),
        .epollAdd 7 (EPOLLIN ||| mainServer.connEvent_), .fcntlGetFd 7, .fcntlSetFl 7 2050] ∧
    mainServer.handleEvent 7 EPOLLRDHUP true [] = some [.epollDel 7, .connClose 7] ∧
    mainServer.handleEvent 7 (EPOLLIN ||| EPOLLHUP) true [] = some [.epollDel 7, .connClose 7] ∧
    mainServer.handleEvent 7 EPOLLERR true [] = some [.epollDel 7, .connClose 7] ∧
    mainServer.OnWrite_ 7 ⟨5, none, 0, false, false⟩ =
      [.connWrite 7, .connToWriteBytes 7, .connIsKeepAlive 7, .epollDel 7, .connClose 7] ∧
    mainServer.runTimerCb (.closeConn 7) = [.epollDel 7, .connClose 7] := by
  decide

/-- C11, the claim as stated, fails on the server of `main.cpp`
(`timeoutMS_` 60000): `AddClient_` registers descriptor 7 with the timer,
then a hang-up event on 7 makes `Start` call `CloseConn_`.  The calls of
`CloseConn_` are `DelFd(7)` and `Close()`: none is made on the timer, and the
entry whose callback is `CloseConn_` on that connection is still registered. -/
theorem C11_hang_up_leaves_timer_entry_counterexample :
    (0 < mainServer.timeoutMS_) ∧
    mainServer.AddClient_ 7 100 2 =
      some [.usersInit 7 100, .timerAdd 7 60000 (.closeConn 7),
        .epollAdd 7 (EPOLLIN ||| mainServer.connEvent_), .fcntlGetFd 7, .fcntlSetFl 7 2050] ∧
    mainServer.handleEvent 7 EPOLLRDHUP true [] = some (mainServer.CloseConn_ 7) ∧
    mainServer.CloseConn_ 7 = [.epollDel 7, .connClose 7] ∧
    (mainServer.CloseConn_ 7).filter Call.onTimer = [] ∧
    (7, TimerCb.closeConn 7) ∈ timerEntries
      ([.usersInit 7 100, .timerAdd 7 60000 (.closeConn 7),
        .epollAdd 7 (EPOLLIN ||| mainServer.connEvent_), .fcntlGetFd 7, .fcntlSetFl 7 2050]
        ++ mainServer.CloseConn_ 7) ∧
    mainServer.runTimerCb (.closeConn 7) = mainServer.CloseConn_ 7 := by
  decide

/-- C11, amended: on every path that closes a connection (hang-up or error
event in `Start`, fatal read or write, completed response without
keep-alive, timer callback) the calls of `CloseConn_` are `DelFd` on the
multiplexer for the connection's descriptor and then `Close` of the state
machine, in this order, and nothing else.  No call is made on the timer: the
entries registered with it are the ones registered before, and after a
connection that `AddClient_` registered with `timeoutMS_ > 0` is closed, the
entry whose callback calls `CloseConn_` on it is still registered. -/
theorem C11_close_calls_and_timer (s : WebServer) (client : Int)
    (hfd : 0 < client) (ht : 0 < s.timeoutMS_) :
    s.CloseConn_ client = [.epollDel client, .connClose client] ∧
    (∀ c ∈ s.CloseConn_ client, c.onTimer = false) ∧
    (∀ (events : Nat) (accepts : List Accepted), client ≠ s.listenFd_ →
      events &&& (EPOLLRDHUP ||| EPOLLHUP ||| EPOLLERR) ≠ 0 →
      s.handleEvent client events true accepts = some (s.CloseConn_ client)) ∧
    (∀ r : ConnReplies, r.ioRet < 0 → r.ioErrno.getD 0 ≠ EAGAIN →
      s.OnRead_ client r = .connRead client :: s.CloseConn_ client) ∧
    (∀ r : ConnReplies, r.ioRet < 0 → r.ioErrno.getD 0 ≠ EAGAIN → r.toWriteBytes ≠ 0 →
      s.OnWrite_ client r =
        [.connWrite client, .connToWriteBytes client] ++ s.CloseConn_ client) ∧
    (∀ r : ConnReplies, r.toWriteBytes = 0 → r.isKeepAlive = false →
      s.OnWrite_ client r =
        [.connWrite client, .connToWriteBytes client, .connIsKeepAlive client]
          ++ s.CloseConn_ client) ∧
    s.runTimerCb (.closeConn client) = s.CloseConn_ client ∧
    (∀ before : List Call,
      timerEntries (before ++ s.CloseConn_ client) = timerEntries before) ∧
    (∀ (addr : Nat) (preFlag : Int), ∃ tr, s.AddClient_ client addr preFlag = some tr ∧
      (client, TimerCb.closeConn client) ∈ timerEntries (tr ++ s.CloseConn_ client)) := by
  refine ⟨rfl, ?_, ?_, ?_, ?_, ?_, rfl, ?_, ?_⟩
  · intro c hc
    simp only [WebServer.CloseConn_, List.mem_cons, List.mem_singleton, List.not_mem_nil,
      or_false] at hc
    rcases hc with h | h <;> subst h <;> rfl
  · intro events accepts hne hev
    simp [WebServer.handleEvent, hne, hev]
  · intro r hneg herr
    have hle : r.ioRet ≤ 0 := le_of_lt hneg
    simp [WebServer.OnRead_, hle, herr]
  · intro r hneg herr hw
    simp [WebServer.OnWrite_, hw, hneg, herr]
  · intro r hw hk
    simp [WebServer.OnWrite_, hw, hk]
  · intro before
    rw [timerEntries_append]
    simp [WebServer.CloseConn_, timerEntries]
  · intro addr preFlag
    refine ⟨[.usersInit client addr, .timerAdd client s.timeoutMS_ (.closeConn client),
      .epollAdd client (EPOLLIN ||| s.connEvent_), .fcntlGetFd client,
      .fcntlSetFl client (Int.lor preFlag O_NONBLOCK)], ?_, ?_⟩
    · simp [WebServer.AddClient_, WebServer.SetFdNonblock, hfd, ht]
    · simp [timerEntries]

/-- C11 amended, on the server of `main.cpp` and descriptor 7: the hang-up
path, and the timer entry after `AddClient_` and `CloseConn_`. -/
theorem C11_close_calls_and_timer_witness :
    (0 : Int) < 7 ∧ 0 < mainServer.timeoutMS_ ∧
    mainServer.CloseConn_ 7 = [.epollDel 7, .connClose 7] ∧
    mainServer.handleEvent 7 EPOLLHUP true [] = some (mainServer.CloseConn_ 7) ∧
    (∃ tr, mainServer.AddClient_ 7 100 2 = some tr ∧
      (7, TimerCb.closeConn 7) ∈ timerEntries (tr ++ mainServer.CloseConn_ 7)) :=
  have h := C11_close_calls_and_timer mainServer 7 (by decide) (by decide)
  ⟨by decide, by decide, h.1, h.2.2.1 EPOLLHUP [] (by decide) (by decide),
    h.2.2.2.2.2.2.2.2 100 2⟩
